import Mathlib

/-!
Verification development for the pyairios register communication layer.

Shallow embedding of:
  * the typed register codec (`src/pyairios/registers.py`),
  * the transport client (`src/pyairios/client.py`): single reads with the
    auxiliary status word, bulk reads with contiguous-run batching, writes,
    command pacing,
  * the device model aggregate fetch (`src/pyairios/device.py`),
  * the gateway binding controller and node directory
    (`src/pyairios/models/brdg_02r13.py` and `src/pyairios/brdg_02r13.py`).

Modelling conventions:
  * Modbus register words are `Nat` (each produced word is < 2^16).
  * Python `datetime.date` / `datetime.datetime` values are `PDate` /
    `PDateTime`; `datetime.date.min` is `⟨1, 1, 1⟩`.
  * 32-bit IEEE floats are represented by their 32-bit patterns: the codec
    only ever packs and unpacks the bit pattern, so this is lossless.
  * Python strings are represented by their UTF-8 byte lists.
  * Exceptions are the explicit error type `PyErr`; the spec's error
    taxonomy (its section 7) is the mapping `errKind`.
  * Bit masks and shifts are translated to `/`, `%` and `*` arithmetic:
    `x & 0x7F = x % 128`, `x >> 7 = x / 128`, and for a byte `x`,
    `x & 0xCF = x % 16 + x / 64 % 4 * 64` (keeps bits 0-3, 6 and 7).
-/

namespace Pyairios

/-- Exceptions that the library can raise, one constructor per Python
exception class reachable in the embedded code paths. -/
inductive PyErr where
  /-- `AiriosInvalidArgumentException` -/
  | invalidArgument
  /-- Python built-in `ValueError` -/
  | valueError
  /-- `AiriosDecodeError` -/
  | decodeError
  /-- `AiriosAcknowledgeException` -/
  | acknowledge
  /-- `AiriosSlaveBusyException` -/
  | slaveBusy
  /-- `AiriosSlaveFailureException` -/
  | slaveFailure
  /-- `AiriosReadException` -/
  | readError
  /-- `AiriosWriteException` -/
  | writeError
  /-- `AiriosConnectionException` -/
  | connection
  /-- `AiriosConnectionInterruptedException` -/
  | connectionInterrupted
  /-- `AiriosIOException` -/
  | ioError
  /-- `AiriosBindingException` -/
  | binding
  /-- `AiriosException` / other raised errors (e.g. `struct.error`) whose
  precise class no claim depends on -/
  | generic
  deriving DecidableEq, Repr

/-- The spec's error taxonomy (spec section 7): kinds, not exception class
names. -/
inductive ErrKind where
  | invalidArgumentKind
  | connectionKind
  | busyKind
  | failureKind
  | acknowledgeKind
  | decodeKind
  | bindingKind
  | otherKind
  deriving DecidableEq, Repr

/-- Map each raised exception to the taxonomy kind of spec section 7.
A Python `ValueError` raised on a violated caller precondition (bad address
range, wrong value type, reading a write-only or writing a read-only
register) is the taxonomy's InvalidArgument kind. -/
def errKind : PyErr → ErrKind
  | .invalidArgument => .invalidArgumentKind
  | .valueError => .invalidArgumentKind
  | .decodeError => .decodeKind
  | .acknowledge => .acknowledgeKind
  | .slaveBusy => .busyKind
  | .slaveFailure => .failureKind
  | .readError => .otherKind
  | .writeError => .otherKind
  | .connection => .connectionKind
  | .connectionInterrupted => .connectionKind
  | .ioError => .connectionKind
  | .binding => .bindingKind
  | .generic => .otherKind

/-- Register value types implemented in `registers.py`:
`U16Register`, `I16Register`, `U32Register`, `FloatRegister`,
`StringRegister`, `DateRegister`, `DateTimeRegister`. -/
inductive RegType where
  | u16
  | i16
  | u32
  | f32
  | str
  | date
  | dtime
  deriving DecidableEq, Repr

/-- A Python `datetime.date` value (year, month, day). -/
structure PDate where
  year : Nat
  month : Nat
  day : Nat
  deriving DecidableEq, Repr

/-- `datetime.date.min` = 0001-01-01, the documented sentinel decoding of
the `0xFFFFFFFF` date register value. -/
def pdateMin : PDate := ⟨1, 1, 1⟩

def isLeapYear (y : Nat) : Bool := (y % 4 = 0 && y % 100 ≠ 0) || y % 400 = 0

def daysInMonth (y m : Nat) : Nat :=
  if m = 2 then (if isLeapYear y then 29 else 28)
  else if m = 4 ∨ m = 6 ∨ m = 9 ∨ m = 11 then 30
  else 31

/-- Validity of a `datetime.date(year, month, day)` construction: Python
raises `ValueError` outside these bounds. -/
def isValidDate (d : PDate) : Bool :=
  1 ≤ d.year && d.year ≤ 9999 && 1 ≤ d.month && d.month ≤ 12 &&
    1 ≤ d.day && d.day ≤ daysInMonth d.year d.month

/-- A Python `datetime.datetime` as used by `DateTimeRegister`: either the
`datetime.datetime.min` sentinel or a UTC UNIX timestamp. -/
inductive PDateTime where
  | dtMin
  | utc (ts : Nat)
  deriving DecidableEq, Repr

/-- A decoded register value (the payload of `Result.value`). -/
inductive RVal where
  /-- integers (u16/i16/u32 decodes, enum raw values) -/
  | num (n : Int)
  /-- a 32-bit float, by its IEEE-754 bit pattern -/
  | f32 (bits : Nat)
  /-- a string, by its UTF-8 bytes -/
  | bytes (bs : List Nat)
  | date (d : PDate)
  | dtime (t : PDateTime)
  | productId (p : Nat)
  | battery (available low : Bool)
  | fault (available fault : Bool)
  deriving DecidableEq, Repr

/-- `BinaryPayloadDecoder.decode_32bit_uint`: two 16-bit words to one
32-bit value, low word first (spec section 4.1: defined word order,
low-word-first). -/
def conv32 : List Nat → Except PyErr Nat
  | [lo, hi] => .ok (lo + 65536 * hi)
  | _ => .error .decodeError

/-- `BinaryPayloadBuilder.add_32bit_uint`: one 32-bit value to two 16-bit
words, low word first. Out-of-range values fail (Python `struct.error`). -/
def pack32 (v : Nat) : Except PyErr (List Nat) :=
  if v < 4294967296 then .ok [v % 65536, v / 65536] else .error .generic

/-- Fueled floor-log2 (correct below `2 ^ fuel`); used with fuel 200,
far above every 32-bit float magnitude arising here. -/
def log2With : Nat → Nat → Nat
  | 0, _ => 0
  | fuel + 1, n => if n ≤ 1 then 0 else log2With fuel (n / 2) + 1

def floorLog2 (n : Nat) : Nat := log2With 200 n

/-- Python `int(value)` applied to a 32-bit float given by its IEEE-754
bit pattern (the `isinstance(value, float)` branch of
`NumberRegister.encode`): truncation toward zero. NaN and the infinities
(exponent field 255) raise (`ValueError` / `OverflowError`); a subnormal
(exponent field 0) has magnitude below 1 and truncates to 0. -/
def truncF32 (bits : Nat) : Except PyErr Int :=
  let s := bits / 2147483648 % 2
  let E := bits / 8388608 % 256
  let M := bits % 8388608
  if E = 255 then .error .generic
  else
    let mag : Nat :=
      if E = 0 then 0
      else if 150 ≤ E then (8388608 + M) * 2 ^ (E - 150)
      else (8388608 + M) / 2 ^ (150 - E)
    if s = 1 then .ok (-(mag : Int)) else .ok (mag : Int)

/-- `struct.pack(">f", n)` for a nonnegative integer `n`
(`BinaryPayloadBuilder.add_32bit_float` applied to the integer that
`NumberRegister.encode` passes it): the IEEE-754 single-precision bit
pattern of `n`, rounded to nearest with ties to even when `n` needs more
than 24 significant bits. Magnitudes at or rounding to `2 ^ 128` overflow
the format and raise (`struct.error`/`OverflowError`). -/
def f32OfNat (a : Nat) : Except PyErr Nat :=
  if a = 0 then .ok 0
  else if 340282366920938463463374607431768211456 ≤ a then .error .generic
  else
    let e := floorLog2 a
    if e ≤ 23 then .ok ((e + 127) * 8388608 + (a * 2 ^ (23 - e) - 8388608))
    else
      let q := a / 2 ^ (e - 23)
      let r := a % 2 ^ (e - 23)
      let q2 := if 2 ^ (e - 23) < 2 * r ∨ (2 * r = 2 ^ (e - 23) ∧ q % 2 = 1)
        then q + 1 else q
      if q2 = 16777216 then
        if 128 ≤ e + 1 then .error .generic else .ok ((e + 1 + 127) * 8388608)
      else .ok ((e + 127) * 8388608 + (q2 - 8388608))

/-- `struct.pack(">f", n)` for a signed integer: pack the magnitude and
set the sign bit. -/
def f32OfInt (n : Int) : Except PyErr Nat :=
  if 0 ≤ n then f32OfNat n.toNat
  else do
    let b ← f32OfNat (-n).toNat
    .ok (2147483648 + b)

/-- Bytes of the register words, big-endian inside each word
(`StringRegister` packing). -/
def wordsToBytes : List Nat → List Nat
  | [] => []
  | w :: ws => (w / 256) % 256 :: w % 256 :: wordsToBytes ws

/-- Pack UTF-8 bytes into 16-bit words, big-endian per word. A byte string
that does not fill whole words cannot be written to word registers. -/
def bytesToWords : List Nat → Except PyErr (List Nat)
  | [] => .ok []
  | b1 :: b2 :: bs => do
    let ws ← bytesToWords bs
    .ok ((b1 * 256 + b2) :: ws)
  | [_] => .error .generic

/-- `str.rstrip("\0")`: drop trailing NUL padding bytes. -/
def rstripZeros (bs : List Nat) : List Nat :=
  (bs.reverse.dropWhile (· = 0)).reverse

/-- `StringRegister.decode`: read `length * 2` bytes from the word buffer
and strip trailing NUL padding. -/
def decodeStr (len : Nat) (ws : List Nat) : Except PyErr RVal :=
  if ws.length = len then .ok (.bytes (rstripZeros (wordsToBytes ws)))
  else .error .decodeError

/-- `DateRegister.decode`: `0xFFFFFFFF` is the "unknown" sentinel decoding
to `datetime.date.min`; otherwise unpack `>BBH` (day, month, year) from the
32-bit value and build the date, `ValueError` when invalid. -/
def decodeDate (ws : List Nat) : Except PyErr RVal := do
  let v ← conv32 ws
  if v = 4294967295 then return .date pdateMin
  let d : PDate := ⟨v % 65536, v / 65536 % 256, v / 16777216⟩
  if isValidDate d then return .date d
  .error .valueError

/-- `DateRegister.encode`: pack `>BBH` (day, month, 16-bit year) into one
32-bit value, then into two words. -/
def encodeDate (d : PDate) : Except PyErr (List Nat) :=
  if d.day < 256 ∧ d.month < 256 ∧ d.year < 65536 then
    pack32 (d.day * 16777216 + d.month * 65536 + d.year)
  else .error .generic

/-- `DateTimeRegister.decode`: `0xFFFFFFFF` is the "unknown" sentinel
decoding to `datetime.datetime.min`; otherwise a UTC UNIX timestamp. -/
def decodeDateTime (ws : List Nat) : Except PyErr RVal := do
  let v ← conv32 ws
  if v = 4294967295 then return .dtime .dtMin
  return .dtime (.utc v)

/-- `DateTimeRegister.encode`: the integer UNIX timestamp as a 32-bit
value. (`datetime.min` itself has no 32-bit timestamp; encoding it fails.) -/
def encodeDateTime : PDateTime → Except PyErr (List Nat)
  | .utc ts => pack32 ts
  | .dtMin => .error .generic

/-- Decode a register payload by register type (`decode` methods of
`registers.py`); `len` is the register word length (used by strings). -/
def decodeByType (ty : RegType) (len : Nat) (ws : List Nat) : Except PyErr RVal :=
  match ty with
  | .u16 =>
    match ws with
    | [w] => .ok (.num w)
    | _ => .error .decodeError
  | .i16 =>
    match ws with
    | [w] => .ok (.num (if w < 32768 then (w : Int) else (w : Int) - 65536))
    | _ => .error .decodeError
  | .u32 => do
    let v ← conv32 ws
    return .num v
  | .f32 => do
    let v ← conv32 ws
    return .f32 v
  | .str => decodeStr len ws
  | .date => decodeDate ws
  | .dtime => decodeDateTime ws

/-- Encode a value by register type (`encode` methods of `registers.py`).
A host value whose type does not match the register's declared type fails
with `AiriosInvalidArgumentException`; out-of-range numbers fail inside the
payload builder. Note `NumberRegister.encode` converts a float value with
`int(value)` before handing it to the payload builder, so a float register
packs the IEEE-754 single of the truncated value — float encoding is
lossy. -/
def encodeByType (ty : RegType) (v : RVal) : Except PyErr (List Nat) :=
  match ty, v with
  | .u16, .num n => if 0 ≤ n ∧ n < 65536 then .ok [n.toNat] else .error .generic
  | .i16, .num n =>
    if -32768 ≤ n ∧ n < 32768 then .ok [(n.emod 65536).toNat] else .error .generic
  | .u32, .num n => if 0 ≤ n then pack32 n.toNat else .error .generic
  | .f32, .num n => do
    let b ← f32OfInt n
    pack32 b
  | .u16, _ => .error .invalidArgument
  | .i16, _ => .error .invalidArgument
  | .u32, _ => .error .invalidArgument
  | .f32, .f32 bits => do
    let n ← truncF32 bits
    let b ← f32OfInt n
    pack32 b
  | .f32, _ => .error .invalidArgument
  | .str, .bytes bs => bytesToWords bs
  | .str, _ => .error .invalidArgument
  | .date, .date d => encodeDate d
  | .date, _ => .error .generic
  | .dtime, .dtime t => encodeDateTime t
  | .dtime, _ => .error .generic

/-! ## Register descriptors and result adapters -/

/-- The `ProductId` enum values of `constants.py`. -/
def productIdValues : List Nat := [0x0001C849, 0x0001C892, 0x0001C83E, 0x0001C852]

/-- `ProductId(value)`: `some value` when the value is a member of the
enum, otherwise the constructor raises `ValueError` (`none`). -/
def parseProductId (n : Int) : Option Nat :=
  if 0 ≤ n ∧ n.toNat ∈ productIdValues then some n.toNat else none

/-- The result adapters / result-type coercions attached to register
descriptors (`device.py`): a closed enumeration of the pure functions used
as `result_adapter` or `result_type` in the device tables. -/
inductive RegAdapter where
  /-- `device.py date_register`: `0xFFFFFFFF` raises `ValueError`, other
  values unpack day/month/year -/
  | dateAdapter
  /-- `device.py battery_status` -/
  | batteryAdapter
  /-- `device.py fault_status` -/
  | faultAdapter
  /-- `result_type=ProductId` coercion: `ProductId(value)` -/
  | productIdCoerce
  deriving DecidableEq, Repr

def applyAdapter : RegAdapter → RVal → Except PyErr RVal
  | .dateAdapter, .num n =>
    if n = 4294967295 then .error .valueError
    else if n < 0 then .error .generic
    else
      let v := n.toNat
      let d : PDate := ⟨v % 65536, v / 65536 % 256, v / 16777216⟩
      if isValidDate d then .ok (.date d) else .error .valueError
  | .batteryAdapter, .num n => .ok (.battery (n ≠ 65535) (n ≠ 65535 && n ≠ 0))
  | .faultAdapter, .num n => .ok (.fault (n ≠ 65535) (n ≠ 0))
  | .productIdCoerce, .num n =>
    match parseProductId n with
    | some p => .ok (.productId p)
    | none => .error .valueError
  | _, _ => .error .generic

/-- A register descriptor: logical property, address, word length,
capability set (`RegisterAccess.READ`/`WRITE`/`STATUS`), value type and
optional result adapter. One instance per (device type, property). -/
structure RegInfo where
  prop : Nat
  addr : Nat
  len : Nat
  canRead : Bool
  canWrite : Bool
  hasStatus : Bool
  rtype : RegType
  adapt : Option RegAdapter := none
  deriving DecidableEq, Repr

/-- `regdesc.decode(...)` for a descriptor. -/
def decodeReg (r : RegInfo) (ws : List Nat) : Except PyErr RVal :=
  decodeByType r.rtype r.len ws

/-- The `result_adapter` / `result_type` post-processing step of
`get_register` and `_get_chunk`: apply the adapter when present, otherwise
keep the raw decode result. -/
def applyAdapt (r : RegInfo) (v : RVal) : Except PyErr RVal :=
  match r.adapt with
  | none => .ok v
  | some a => applyAdapter a v

/-! ## Transport client -/

/-- One command observed at the channel boundary. -/
inductive Cmd where
  | read (addr count dev : Nat)
  | write (addr : Nat) (vals : List Nat) (dev : Nat)
  deriving DecidableEq, Repr

def Cmd.isWrite : Cmd → Bool
  | .write _ _ _ => true
  | _ => false

/-- The underlying read channel (`client.read_holding_registers` plus the
exception mapping of `_read_registers`): a response or a mapped domain
error for each (register, count, device id) request. -/
abbrev RChan := Nat → Nat → Nat → Except PyErr (List Nat)

/-- The underlying write channel (`client.write_register(s)` plus the
exception mapping of `_write_registers`): the success boolean or a mapped
domain error. -/
abbrev WChan := Nat → List Nat → Nat → Except PyErr Bool

/-- `AsyncAiriosModbusClient._read_registers`: issue the read, map channel
failures (already folded into the channel), and check that the response
has the requested number of registers (a mismatch raises
`AiriosSlaveBusyException`). The trace records the issued command. -/
def readRegisters (rch : RChan) (a c dev : Nat) : Except PyErr (List Nat) × List Cmd :=
  (match rch a c dev with
   | .ok ws => if ws.length = c then .ok ws else .error .slaveBusy
   | .error e => .error e,
   [.read a c dev])

/-- The per-value status metadata (`ResultStatus`): age (seconds), source
and flags of the auxiliary status word. -/
structure StatusRec where
  age : Nat
  src : Nat
  flags : Nat
  deriving DecidableEq, Repr

/-- Decode the 16-bit status word (`get_register`, client.py lines
270-278):
`age = tmp & 0x7F`; `age_is_hours = (tmp >> 7) & 0x01`;
`flags = ValueStatusFlags((tmp >> 8) & 0xCF)`;
`source = ValueStatusSource((tmp >> 12) & 0x03)`;
an hours-scaled age is multiplied by 3600.
`ValueStatusFlags` is a strict `Flag` whose members are
0x01/0x02/0x04/0x08/0x40, so a masked bit outside those (only 0x80 can
pass the 0xCF mask) raises `ValueError`; `ValueStatusSource` has members
0, 1, 2, so source bits 3 raise `ValueError`. -/
def decodeStatusWord (w : Nat) : Except PyErr StatusRec :=
  let age0 := w % 128
  let ageIsHours := w / 128 % 2
  let fl := w / 256 % 16 + w / 16384 % 4 * 64
  if 128 ≤ fl then .error .valueError
  else
    let src := w / 4096 % 4
    if 3 ≤ src then .error .valueError
    else .ok ⟨if ageIsHours = 1 then age0 * 3600 else age0, src, fl⟩

/-- A register read result: decoded value plus optional status metadata
(`Result`). The value is an `Option` because the device model's
"fetch all properties" fills missing properties with `Result(None, None)`. -/
structure ResultV where
  value : Option RVal
  rstatus : Option StatusRec
  deriving DecidableEq, Repr

/-- `AsyncAiriosModbusClient.get_register`: refuse a non-readable
register (`ValueError`, no channel I/O), read the primary payload, decode
and adapt it, and when the descriptor has the STATUS capability read and
decode the auxiliary status word at `address + 10000`. -/
def get_register (rch : RChan) (r : RegInfo) (dev : Nat) :
    Except PyErr ResultV × List Cmd :=
  if ¬ r.canRead then (.error .valueError, [])
  else
    match readRegisters rch r.addr r.len dev with
    | (.error e, t1) => (.error e, t1)
    | (.ok ws, t1) =>
      match decodeReg r ws >>= applyAdapt r with
      | .error e => (.error e, t1)
      | .ok v =>
        if r.hasStatus then
          match readRegisters rch (r.addr + 10000) 1 dev with
          | (.error e, t2) => (.error e, t1 ++ t2)
          | (.ok ws2, t2) =>
            match decodeStatusWord (ws2.headD 0) with
            | .error e => (.error e, t1 ++ t2)
            | .ok st => (.ok ⟨some v, some st⟩, t1 ++ t2)
        else (.ok ⟨some v, none⟩, t1)

/-- `AsyncAiriosModbusClient.set_register`: refuse a non-writable register
(`ValueError`, no channel I/O), encode the value, and write it. -/
def set_register (wch : WChan) (r : RegInfo) (v : RVal) (dev : Nat) :
    Except PyErr Bool × List Cmd :=
  if ¬ r.canWrite then (.error .valueError, [])
  else
    match encodeByType r.rtype v with
    | .error e => (.error e, [])
    | .ok ws =>
      match wch r.addr ws dev with
      | .error e => (.error e, [.write r.addr ws dev])
      | .ok b => (.ok b, [.write r.addr ws dev])

/-! ## Contiguous-run batching (`get_multiple` and helpers) -/

/-- Whether register `b` continues the contiguous run ending at `a`:
`prev.address + prev.length == curr.address`. -/
def contig (a b : RegInfo) : Bool := a.addr + a.len = b.addr

/-- The grouping loop of `get_multiple` (client.py lines 297-307): scan
the presented list left to right, a register continues the current chunk
exactly when it is contiguous with the previous one, otherwise it starts a
new chunk. -/
def chunksFrom (r : RegInfo) : List RegInfo → List (List RegInfo)
  | [] => [[r]]
  | s :: rs =>
    match chunksFrom s rs with
    | [] => [[r]]
    | c :: cs => if contig r s then (r :: c) :: cs else [r] :: c :: cs

def chunksOf : List RegInfo → List (List RegInfo)
  | [] => []
  | r :: rs => chunksFrom r rs

/-- The monotonic-order precondition check of `_get_multiple` (client.py
lines 345-353): every adjacent pair must be contiguous, otherwise
`AiriosInvalidArgumentException`. -/
def contigOk : List RegInfo → Bool
  | [] => true
  | [_] => true
  | a :: b :: rs => contig a b && contigOk (b :: rs)

/-- Slice the bulk-read word buffer back into one register's words:
`response.registers[r.address - start : r.address - start + r.length]`. -/
def sliceWords (ws : List Nat) (start : Nat) (r : RegInfo) : List Nat :=
  (ws.drop (r.addr - start)).take r.len

/-- Decode every register of a chunk from the bulk word buffer, in order;
a decode failure propagates. -/
def decodeSlices (ws : List Nat) (start : Nat) : List RegInfo → Except PyErr (List RVal)
  | [] => .ok []
  | r :: rs => do
    let v ← decodeReg r (sliceWords ws start r)
    let vs ← decodeSlices ws start rs
    return v :: vs

/-- `AsyncAiriosModbusClient._get_multiple`: check the contiguity
precondition, issue one bulk read spanning
`[first.address, last.address + last.length)`, and slice and decode each
register's words. (It is only ever called on the non-empty chunks built by
`get_multiple`; on `[]` Python would fail looking up `regdesc[0]`.) -/
def get_multiple_run (rch : RChan) (dev : Nat) :
    List RegInfo → Except PyErr (List RVal) × List Cmd
  | [] => (.error .generic, [])
  | r0 :: rest =>
    if ¬ contigOk (r0 :: rest) then (.error .invalidArgument, [])
    else
      let lastR := (r0 :: rest).getLast (by simp)
      let total := lastR.addr + lastR.len - r0.addr
      match readRegisters rch r0.addr total dev with
      | (.error e, t) => (.error e, t)
      | (.ok ws, t) => (decodeSlices ws r0.addr (r0 :: rest), t)

/-- The adapter loop of `_get_chunk`: apply each register's
adapter/coercion; a `ValueError` there skips that property only. -/
def adaptEntries : List (RegInfo × RVal) → List (Nat × ResultV)
  | [] => []
  | (r, v) :: rest =>
    match applyAdapt r v with
    | .error _ => adaptEntries rest
    | .ok v1 => (r.prop, ⟨some v1, none⟩) :: adaptEntries rest

/-- `AsyncAiriosModbusClient._get_chunk`: bulk-read and decode one chunk,
then adapt each value and collect `(property, Result(value, None))`
entries. -/
def get_chunk (rch : RChan) (c : List RegInfo) (dev : Nat) :
    Except PyErr (List (Nat × ResultV)) × List Cmd :=
  match get_multiple_run rch dev c with
  | (.error e, t) => (.error e, t)
  | (.ok vals, t) => (.ok (adaptEntries (c.zip vals)), t)

/-- The property-to-result dictionary built by `get_multiple` and
`fetch` (`AiriosDeviceData`), modelled as a partial map. -/
abbrev DataMap := Nat → Option ResultV

def emptyMap : DataMap := fun _ => none

/-- `retval[key] = value` (dict entry assignment / `dict.update`). -/
def setEntry (m : DataMap) (kv : Nat × ResultV) : DataMap :=
  fun p => if p = kv.1 then some kv.2 else m p

def setEntries (m : DataMap) (l : List (Nat × ResultV)) : DataMap :=
  l.foldl setEntry m

/-- The chunk loop of `get_multiple` (client.py lines 309-318): fetch each
chunk; an `AiriosAcknowledgeException` skips that chunk and processing
continues; any other error propagates. -/
def get_multiple_go (rch : RChan) (dev : Nat) :
    List (List RegInfo) → DataMap → Except PyErr DataMap × List Cmd
  | [], m => (.ok m, [])
  | c :: cs, m =>
    match get_chunk rch c dev with
    | (.ok entries, t) =>
      let (res, t1) := get_multiple_go rch dev cs (setEntries m entries)
      (res, t ++ t1)
    | (.error .acknowledge, t) =>
      let (res, t1) := get_multiple_go rch dev cs m
      (res, t ++ t1)
    | (.error e, t) => (.error e, t)

/-- `AsyncAiriosModbusClient.get_multiple`: reject an empty register list
(`AiriosInvalidArgumentException`) and any non-readable register
(`ValueError`) before any channel I/O; then group the presented list into
contiguous chunks and bulk-read them one by one. -/
def get_multiple (rch : RChan) (regs : List RegInfo) (dev : Nat) :
    Except PyErr DataMap × List Cmd :=
  if regs.isEmpty then (.error .invalidArgument, [])
  else if regs.any (fun r => ¬ r.canRead) then (.error .valueError, [])
  else get_multiple_go rch dev (chunksOf regs) emptyMap

/-! ## Device model (`device.py`) -/

/-- A device instance: its device address and its register table. -/
structure DeviceT where
  devId : Nat
  registers : List RegInfo

/-- The declared logical properties of the device (the keys of `regmap`). -/
def declaredProps (d : DeviceT) : List Nat := d.registers.map (·.prop)

/-- `AiriosDevice._add_registers`: extend the register table and keep it
sorted by register address. -/
def _add_registers (d : DeviceT) (reglist : List RegInfo) : DeviceT :=
  ⟨d.devId, (d.registers ++ reglist).mergeSort (fun a b => a.addr ≤ b.addr)⟩

/-- The `all_props` fill-in step of `AiriosDevice.fetch` (device.py lines
176-181): every declared property missing from the result map is filled
with `Result(None, None)`. -/
def fillAbsent (d : DeviceT) (m : DataMap) : DataMap :=
  fun p =>
    match m p with
    | some r => some r
    | none => if p ∈ declaredProps d then some ⟨none, none⟩ else none

/-- `AiriosDevice.fetch` in its bulk path (`with_status=False`): run the
Batch Reader over every read-capable register, then, when `all_props` is
set, fill every still-missing declared property with the explicit absent
value. -/
def fetch (rch : RChan) (d : DeviceT) (allProps : Bool) :
    Except PyErr DataMap × List Cmd :=
  let rl := d.registers.filter (·.canRead)
  match get_multiple rch rl d.devId with
  | (.error e, t) => (.error e, t)
  | (.ok m, t) => (.ok (if allProps then fillAbsent d m else m), t)

/-! ## Command pacing (`client.py` lines 44-46, 119-122, 185)

Timestamps are rational numbers of seconds (an idealization of Python's
float-valued `time.time()`), and `asyncio.sleep(delay)` is modelled as
suspending for exactly `delay`. -/

/-- `MIN_TIME_BETWEEN_COMMANDS = 0.01`. -/
def minTimeBetweenCommands : ℚ := 1 / 100

/-- The pacing step at the top of `_read_registers`: with `ts` the
client's recorded timestamp and `now` the current time, sleep
`MIN_TIME_BETWEEN_COMMANDS - (now - ts)` when the elapsed time is below
the minimum, so the read command reaches the channel at this time.
`_write_registers` contains no such step. -/
def issueTime (ts now : ℚ) : ℚ :=
  if now - ts < minTimeBetweenCommands then
    now + (minTimeBetweenCommands - (now - ts))
  else now

/-- One operation submitted to the transport client with zero caller
delay: a read (`_read_registers`) or a write (`_write_registers`), with
the time the underlying modbus call takes. -/
structure OpReq where
  isRead : Bool
  dur : ℚ
  deriving DecidableEq, Repr

/-- Run a sequence of back-to-back operations from current time `now`
with recorded timestamp `ts`, returning each operation's kind and the
time its command reaches the channel boundary. A read paces
(`issueTime`) and then records its completion time as the new `ts` (the
`finally: self.ts = time.time()` of `_read_registers`); a write is
issued immediately at `now` and leaves `ts` unchanged —
`_write_registers` has neither the pacing sleep nor the timestamp
update. -/
def runOps : ℚ → ℚ → List OpReq → List (Bool × ℚ)
  | _, _, [] => []
  | now, ts, op :: ops =>
    if op.isRead then
      (true, issueTime ts now)
        :: runOps (issueTime ts now + op.dur) (issueTime ts now + op.dur) ops
    else
      (false, now) :: runOps (now + op.dur) ts ops

/-- The channel-boundary issue times of the read commands of a run. -/
def readIssues (l : List (Bool × ℚ)) : List ℚ :=
  (l.filter (fun p => p.1)).map Prod.snd

/-! ## Binding controller and node directory (`brdg_02r13.py`,
`models/brdg_02r13.py`)

The gateway registers involved; the logical property of each is taken to
be its register address (they are pairwise distinct). -/

def regBindingCommand : RegInfo := ⟨43004, 43004, 1, false, true, false, .u16, none⟩
def regActualBindingStatus : RegInfo := ⟨43900, 43900, 1, true, false, false, .u16, none⟩
def regBindingProductId : RegInfo := ⟨43000, 43000, 2, true, true, false, .u32, none⟩
def regCreateNode : RegInfo := ⟨43005, 43005, 1, false, true, false, .u16, none⟩
def regBindingProductSerial : RegInfo := ⟨43002, 43002, 2, true, true, false, .u32, none⟩

/-- `node.py` `Reg.RF_ADDRESS` (`U32Register`, address 40000, READ). -/
def regNodeRfAddress : RegInfo := ⟨40000, 40000, 2, true, false, false, .u32, none⟩

/-- `node.py` `Reg.PRODUCT_ID` (`U32Register`, address 40002, READ). -/
def regNodeProductId : RegInfo := ⟨40002, 40002, 2, true, false, false, .u32, none⟩

/-- `Reg.ADDRESS_NODE_1` .. `ADDRESS_NODE_32` (`U16Register`, READ),
addresses 43902..43933. -/
def slotReg (i : Nat) : RegInfo := ⟨43902 + i, 43902 + i, 1, true, false, false, .u16, none⟩

/-- The 32 fixed node-address slot registers in slot order. -/
def slotRegsList : List RegInfo := (List.range 32).map slotReg

/-- `BindingMode` values (`constants.py`). -/
def bindingModeAbort : Nat := 200
def bindingModeOutgoingSingleProduct : Nat := 3
def bindingModeOutgoingSingleProductPlusSerial : Nat := 4

/-- The tail of `BRDG02R13.bind_controller` after the precondition gate:
write the product id, create the node, optionally write the serial, then
issue the binding command word `((slave_id & 0xFF) << 8) | mode`. -/
def bind_controller_tail (wch : WChan) (selfId slaveId productIdv : Nat)
    (serial : Option Nat) : Except PyErr Bool × List Cmd :=
  match set_register wch regBindingProductId (.num productIdv) selfId with
  | (.error e, t3) => (.error e, t3)
  | (.ok ok3, t3) =>
    if ¬ ok3 then (.error .binding, t3)
    else
      match set_register wch regCreateNode (.num slaveId) selfId with
      | (.error e, t4) => (.error e, t3 ++ t4)
      | (.ok ok4, t4) =>
        if ¬ ok4 then (.error .binding, t3 ++ t4)
        else
          let mode := match serial with
            | none => bindingModeOutgoingSingleProduct
            | some _ => bindingModeOutgoingSingleProductPlusSerial
          let cmdWord := slaveId % 256 * 256 + mode
          match serial with
          | none =>
            let (r, t6) := set_register wch regBindingCommand (.num cmdWord) selfId
            (r, t3 ++ t4 ++ t6)
          | some s =>
            match set_register wch regBindingProductSerial (.num s) selfId with
            | (.error e, t5) => (.error e, t3 ++ t4 ++ t5)
            | (.ok ok5, t5) =>
              if ¬ ok5 then (.error .binding, t3 ++ t4 ++ t5)
              else
                let (r, t6) := set_register wch regBindingCommand (.num cmdWord) selfId
                (r, t3 ++ t4 ++ t5 ++ t6)

/-- `BRDG02R13.bind_controller`: validate the target address, write Abort
to the binding-command register, require the binding-status register to
read Idle(0) — any other value is a fatal `AiriosBindingException` — and
only then perform the configure/create/command write sequence. -/
def bind_controller (rch : RChan) (wch : WChan) (selfId slaveId productIdv : Nat)
    (serial : Option Nat) : Except PyErr Bool × List Cmd :=
  if slaveId < 2 ∨ 247 < slaveId then (.error .invalidArgument, [])
  else if slaveId = selfId then (.error .invalidArgument, [])
  else
    match set_register wch regBindingCommand (.num bindingModeAbort) selfId with
    | (.error e, t1) => (.error e, t1)
    | (.ok ok1, t1) =>
      if ¬ ok1 then (.error .binding, t1)
      else
        match get_register rch regActualBindingStatus selfId with
        | (.error e, t2) => (.error e, t1 ++ t2)
        | (.ok res, t2) =>
          if res.value = some (.num 0) then
            let (r, t3) := bind_controller_tail wch selfId slaveId productIdv serial
            (r, t1 ++ t2 ++ t3)
          else (.error .binding, t1 ++ t2)

/-- `AiriosBoundNodeInfo`: device address, product identity (as its raw
enum value) and radio address of one bound node. -/
structure BoundNodeInfo where
  slaveId : Nat
  productIdv : Nat
  rfAddress : Int
  deriving DecidableEq, Repr

/-- The scan loop of `BRDG02R13.nodes` over the slot registers: read each
slot; a slot value 0 is skipped; a non-zero slot value is used as a device
address for two further reads (product identity, then radio address); an
unparseable product identity skips that slot only; channel errors
propagate. -/
def nodes_go (rch : RChan) (selfId : Nat) :
    List RegInfo → Except PyErr (List BoundNodeInfo) × List Cmd
  | [] => (.ok [], [])
  | sreg :: rest =>
    match get_register rch sreg selfId with
    | (.error e, t) => (.error e, t)
    | (.ok res, t) =>
      match res.value with
      | some (.num sid) =>
        if sid = 0 then
          let (r, t1) := nodes_go rch selfId rest
          (r, t ++ t1)
        else
          match get_register rch regNodeProductId sid.toNat with
          | (.error e, t2) => (.error e, t ++ t2)
          | (.ok res2, t2) =>
            match res2.value with
            | some (.num pv) =>
              match parseProductId pv with
              | none =>
                let (r, t1) := nodes_go rch selfId rest
                (r, t ++ t2 ++ t1)
              | some pid =>
                match get_register rch regNodeRfAddress sid.toNat with
                | (.error e, t3) => (.error e, t ++ t2 ++ t3)
                | (.ok res3, t3) =>
                  match res3.value with
                  | some (.num rfa) =>
                    let (r, t1) := nodes_go rch selfId rest
                    (match r with
                     | .ok l => .ok (⟨sid.toNat, pid, rfa⟩ :: l)
                     | .error e => .error e,
                     t ++ t2 ++ t3 ++ t1)
                  | _ =>
                    let (r, t1) := nodes_go rch selfId rest
                    (r, t ++ t2 ++ t3 ++ t1)
            | _ =>
              let (r, t1) := nodes_go rch selfId rest
              (r, t ++ t2 ++ t1)
      | _ =>
        let (r, t1) := nodes_go rch selfId rest
        (r, t ++ t1)

/-- `BRDG02R13.nodes`: scan the 32 fixed node-address slot registers in
slot order and resolve each populated slot. -/
def nodes (rch : RChan) (selfId : Nat) : Except PyErr (List BoundNodeInfo) × List Cmd :=
  nodes_go rch selfId slotRegsList

/-! ## Derived notions used in theorem statements -/

/-- The first address of a chunk. -/
def chunkStart : List RegInfo → Nat
  | [] => 0
  | r :: _ => r.addr

/-- The word count of the bulk read issued for a chunk:
`last.address + last.length - first.address`. -/
def chunkSpan : List RegInfo → Nat
  | [] => 0
  | r0 :: rest => (((r0 :: rest).getLast (by simp)).addr
      + ((r0 :: rest).getLast (by simp)).len) - r0.addr

/-- The entries a chunk contributes to the result map (empty when its
fetch failed). -/
def chunkEntriesOf (rch : RChan) (dev : Nat) (c : List RegInfo) : List (Nat × ResultV) :=
  match (get_chunk rch c dev).1 with
  | .ok e => e
  | .error _ => []

/-- All entries contributed by a chunk list. -/
def goodEntries (rch : RChan) (dev : Nat) (cks : List (List RegInfo)) :
    List (Nat × ResultV) :=
  (cks.map (chunkEntriesOf rch dev)).flatten

/-- Sorting a register list by address, as `AiriosDevice._add_registers`
does with its table. -/
def sortByAddr (l : List RegInfo) : List RegInfo :=
  l.mergeSort (fun a b => a.addr ≤ b.addr)

/-- Two adjacent chunks are separated by a genuine break: the last
register of the first is not contiguous with the first register of the
second. -/
def chunkBoundary (c1 c2 : List RegInfo) : Prop :=
  ∀ a b, c1.getLast? = some a → c2.head? = some b → contig a b = false

/-! ### Spec-side description of the node directory scan

`nodesSpec` and `nodesSpecTrace` state, slot by slot, the outcome the scan
is expected to produce over a channel `mkNodesChan`: the bound-node list in
slot order with empty and unparseable slots omitted, and one single read
per slot register plus two reads (product identity, then radio address)
per populated slot, cut short after the product-identity read when it is
unparseable. -/

/-- A read channel holding slot values, per-device product identities and
per-device radio addresses: slot register `i` (address `43902 + i`) reads
`slotVal i` on the gateway, and any device `d` answers its 32-bit
product-identity register (40002) with `pid d` and its radio-address
register (40000) with `rf d`. -/
def mkNodesChan (selfId : Nat) (slotVal pid rf : Nat → Nat) : RChan :=
  fun a c d =>
    if d = selfId ∧ 43902 ≤ a ∧ a < 43934 ∧ c = 1 then .ok [slotVal (a - 43902)]
    else if a = 40002 ∧ c = 2 then .ok [pid d % 65536, pid d / 65536]
    else if a = 40000 ∧ c = 2 then .ok [rf d % 65536, rf d / 65536]
    else .error .readError

/-- Expected scan result over `mkNodesChan`, in slot order. -/
def nodesSpec (slotVal pid rf : Nat → Nat) : List Nat → List BoundNodeInfo
  | [] => []
  | i :: is =>
    let s := slotVal i
    if s = 0 then nodesSpec slotVal pid rf is
    else
      match parseProductId (pid s) with
      | none => nodesSpec slotVal pid rf is
      | some p => ⟨s, p, (rf s : Int)⟩ :: nodesSpec slotVal pid rf is

/-- Expected channel trace of the scan over `mkNodesChan`. -/
def nodesSpecTrace (selfId : Nat) (slotVal pid : Nat → Nat) : List Nat → List Cmd
  | [] => []
  | i :: is =>
    let s := slotVal i
    (.read (43902 + i) 1 selfId ::
      (if s = 0 then []
       else .read 40002 2 s ::
         (match parseProductId (pid s) with
          | none => []
          | some _ => [.read 40000 2 s])))
      ++ nodesSpecTrace selfId slotVal pid is

/-! ### Concrete scenarios used by witnesses and counterexamples -/

/-- The registers of the Batch Reader grouping example: (address, length)
pairs (10,1), (11,1), (12,2), (20,1), all read-capable. -/
def regA10 : RegInfo := ⟨1, 10, 1, true, false, false, .u16, none⟩
def regA11 : RegInfo := ⟨2, 11, 1, true, false, false, .u16, none⟩
def regA12 : RegInfo := ⟨3, 12, 2, true, false, false, .u32, none⟩
def regA20 : RegInfo := ⟨4, 20, 1, true, false, false, .u16, none⟩

def exampleRegs : List RegInfo := [regA10, regA11, regA12, regA20]

/-- A channel answering every read with zero words. -/
def chanZero : RChan := fun _ c _ => .ok (List.replicate c 0)

/-- A write-only register (like `Reg.RESET_DEVICE`). -/
def regWriteOnly : RegInfo := ⟨9, 41107, 1, false, true, false, .u16, none⟩

/-- A read-only register (like `Reg.UPTIME`). -/
def regReadOnly : RegInfo := ⟨8, 41019, 2, true, false, false, .u32, none⟩

/-- Device for the partial-failure scenario: three read-capable registers
forming the two contiguous runs [10, 12) and [20, 21). -/
def exDevice : DeviceT := ⟨5, [regA10, regA11, regA20]⟩

/-- A channel where the bulk read of the run starting at address 10 raises
Acknowledge and every other read succeeds (address 20 reads the value 7). -/
def chanAck : RChan := fun a c _ =>
  if a = 10 then .error .acknowledge
  else if a = 20 then .ok [7]
  else .ok (List.replicate c 0)

/-- A write channel acknowledging every write. -/
def wchanTrue : WChan := fun _ _ _ => .ok true

/-- A read channel whose binding-status register reads 2 (OutgoingBindingCompleted). -/
def chanStatus2 : RChan := fun a c _ =>
  if a = 43900 then .ok [2] else .ok (List.replicate c 0)

/-- Demo slot table: slots 1..3 populated with device addresses 12, 45
and 99, remaining slots empty. -/
def demoSlotVal (i : Nat) : Nat :=
  if i = 0 then 12 else if i = 1 then 45 else if i = 2 then 99 else 0

/-- Demo product identities: device 45 reports the unparseable value
0xDEAD, devices 12 and 99 report real `ProductId` members. -/
def demoPid (d : Nat) : Nat :=
  if d = 12 then 0x0001C892 else if d = 99 then 0x0001C83E else 0xDEAD

/-- Demo radio addresses. -/
def demoRf (d : Nat) : Nat := d * 10

def demoNodesChan : RChan := mkNodesChan 207 demoSlotVal demoPid demoRf

end Pyairios

/-! # Theorems -/

namespace Pyairios

theorem daysInMonth_le (y m : Nat) : daysInMonth y m ≤ 31 := by
  unfold daysInMonth
  split_ifs <;> omega

theorem bytesToWords_spec : (bs : List Nat) → (∀ b ∈ bs, b < 256) → bs.length % 2 = 0 →
    ∃ ws, bytesToWords bs = .ok ws ∧ wordsToBytes ws = bs ∧ 2 * ws.length = bs.length
  | [], _, _ => ⟨[], rfl, rfl, rfl⟩
  | [_], _, hlen => by simp at hlen
  | b1 :: b2 :: bs, hb, hlen => by
    obtain ⟨ws, h1, h2, h3⟩ := bytesToWords_spec bs
      (fun b hbmem => hb b (by simp [hbmem]))
      (by simp only [List.length_cons] at hlen ⊢; omega)
    have hb1 : b1 < 256 := hb b1 (by simp)
    have hb2 : b2 < 256 := hb b2 (by simp)
    refine ⟨(b1 * 256 + b2) :: ws, ?_, ?_, ?_⟩
    · simp only [bytesToWords, h1]; rfl
    · simp only [wordsToBytes, h2, List.cons.injEq]
      exact ⟨by omega, by omega, trivial⟩
    · simp only [List.length_cons]; omega

theorem rstripZeros_eq_self (bs : List Nat) (h : bs.getLast? ≠ some 0) :
    rstripZeros bs = bs := by
  unfold rstripZeros
  cases hrev : bs.reverse with
  | nil =>
    have : bs = [] := by simpa using congrArg List.reverse hrev
    simp [this]
  | cons a t =>
    have hla : bs.getLast? = some a := by
      rw [← List.head?_reverse, hrev]; rfl
    have ha : ¬ (a = 0) := fun hz => h (hz ▸ hla)
    rw [List.dropWhile_cons_of_neg (by simpa using ha)]
    rw [← hrev, List.reverse_reverse]

theorem decode_u16_eq (w : Nat) : decodeByType .u16 1 [w] = .ok (.num w) := rfl

theorem decode_i16_eq (w : Nat) :
    decodeByType .i16 1 [w]
      = .ok (.num (if w < 32768 then (w : Int) else (w : Int) - 65536)) := rfl

theorem decode_u32_eq (len lo hi : Nat) :
    decodeByType .u32 len [lo, hi] = .ok (.num (lo + 65536 * hi)) := rfl

theorem decode_f32_eq (len lo hi : Nat) :
    decodeByType .f32 len [lo, hi] = .ok (.f32 (lo + 65536 * hi)) := rfl

theorem decodeDate_cons (lo hi : Nat) :
    decodeDate [lo, hi] =
      (if lo + 65536 * hi = 4294967295 then .ok (.date pdateMin)
       else if isValidDate ⟨(lo + 65536 * hi) % 65536, (lo + 65536 * hi) / 65536 % 256,
              (lo + 65536 * hi) / 16777216⟩ then
         .ok (.date ⟨(lo + 65536 * hi) % 65536, (lo + 65536 * hi) / 65536 % 256,
              (lo + 65536 * hi) / 16777216⟩)
       else .error .valueError) := rfl

theorem decodeDateTime_cons (lo hi : Nat) :
    decodeDateTime [lo, hi] =
      (if lo + 65536 * hi = 4294967295 then .ok (.dtime .dtMin)
       else .ok (.dtime (.utc (lo + 65536 * hi)))) := rfl

theorem encode_u16_eq (n : Int) (h1 : 0 ≤ n) (h2 : n < 65536) :
    encodeByType .u16 (.num n) = .ok [n.toNat] := by
  show (if 0 ≤ n ∧ n < 65536 then (Except.ok [n.toNat] : Except PyErr (List Nat))
    else .error .generic) = .ok [n.toNat]
  rw [if_pos ⟨h1, h2⟩]

theorem encode_i16_eq (n : Int) (h1 : -32768 ≤ n) (h2 : n < 32768) :
    encodeByType .i16 (.num n) = .ok [(n.emod 65536).toNat] := by
  show (if -32768 ≤ n ∧ n < 32768 then (Except.ok [(n.emod 65536).toNat] : Except PyErr (List Nat))
    else .error .generic) = .ok [(n.emod 65536).toNat]
  rw [if_pos ⟨h1, h2⟩]

theorem encode_u32_eq (n : Int) (h1 : 0 ≤ n) (h2 : n.toNat < 4294967296) :
    encodeByType .u32 (.num n) = .ok [n.toNat % 65536, n.toNat / 65536] := by
  show (if 0 ≤ n then pack32 n.toNat else .error .generic) = _
  rw [if_pos h1]
  unfold pack32
  rw [if_pos h2]

theorem log2With_spec : ∀ (fuel n : Nat), 1 ≤ n → n < 2 ^ fuel →
    2 ^ log2With fuel n ≤ n ∧ n < 2 ^ (log2With fuel n + 1) := by
  intro fuel
  induction fuel with
  | zero =>
    intro n h1 h2
    simp only [pow_zero] at h2
    omega
  | succ f ih =>
    intro n h1 h2
    by_cases hn : n ≤ 1
    · have hl : log2With (f + 1) n = 0 := by
        show (if n ≤ 1 then 0 else log2With f (n / 2) + 1) = 0
        rw [if_pos hn]
      rw [hl]
      constructor
      · simp only [pow_zero]
        omega
      · simp only [zero_add, pow_one]
        omega
    · have hl : log2With (f + 1) n = log2With f (n / 2) + 1 := by
        show (if n ≤ 1 then 0 else log2With f (n / 2) + 1) = _
        rw [if_neg hn]
      have hhalf : n / 2 < 2 ^ f := by
        rw [pow_succ] at h2
        omega
      obtain ⟨ha, hb⟩ := ih (n / 2) (by omega) hhalf
      rw [hl]
      rw [pow_succ] at hb
      constructor
      · rw [pow_succ]
        omega
      · rw [pow_succ, pow_succ]
        omega

/-- Every bit pattern `f32OfNat` produces has a clear sign bit: it is
below `2 ^ 31`. -/
theorem f32OfNat_lt (a b : Nat) (h : f32OfNat a = .ok b) : b < 2147483648 := by
  by_cases h0 : a = 0
  · subst h0
    have hb : (0 : Nat) = b := Except.ok.inj h
    omega
  by_cases hbig : 340282366920938463463374607431768211456 ≤ a
  · unfold f32OfNat at h
    rw [if_neg h0, if_pos hbig] at h
    exact Except.noConfusion h
  have h1 : 1 ≤ a := by omega
  have hspec : 2 ^ floorLog2 a ≤ a ∧ a < 2 ^ (floorLog2 a + 1) :=
    log2With_spec 200 a h1 (by
      have hb2 : a < 340282366920938463463374607431768211456 := by omega
      have hc2 : (340282366920938463463374607431768211456 : Nat) < 2 ^ 200 := by norm_num
      omega)
  obtain ⟨hle, hlt⟩ := hspec
  have he127 : floorLog2 a ≤ 127 := by
    by_contra hc
    push_neg at hc
    have hp : 2 ^ 128 ≤ 2 ^ floorLog2 a := Nat.pow_le_pow_right (by norm_num) hc
    have hp2 : (2 : Nat) ^ 128 = 340282366920938463463374607431768211456 := by norm_num
    omega
  simp only [f32OfNat] at h
  rw [if_neg h0, if_neg hbig] at h
  revert hle hlt he127 h
  generalize floorLog2 a = e
  intro hle hlt he127 h
  split_ifs at h with hc1 hc2 hc3 hc4 hc5 hc6
  · -- exact case: a < 2 ^ 24
    have hpow : 2 ^ (e + 1) * 2 ^ (23 - e) = 16777216 := by
      rw [← pow_add, show e + 1 + (23 - e) = 24 from by omega]
      norm_num
    have hprod : a * 2 ^ (23 - e) < 16777216 := by
      rw [← hpow]
      exact mul_lt_mul_of_pos_right hlt (Nat.two_pow_pos _)
    have hb := Except.ok.inj h
    omega
  all_goals {
    have h23 : ¬ (e ≤ 23) := hc1
    have hpow2 : 16777216 * 2 ^ (e - 23) = 2 ^ (e + 1) := by
      rw [show (16777216 : Nat) = 2 ^ 24 from by norm_num, ← pow_add,
        show 24 + (e - 23) = e + 1 from by omega]
    have hq : a / 2 ^ (e - 23) < 16777216 := by
      apply Nat.div_lt_of_lt_mul
      rw [Nat.mul_comm, hpow2]
      exact hlt
    have hb := Except.ok.inj h
    omega
  }

theorem f32OfInt_lt (n : Int) (b : Nat) (h : f32OfInt n = .ok b) : b < 4294967296 := by
  unfold f32OfInt at h
  split_ifs at h with hn
  · have := f32OfNat_lt n.toNat b h
    omega
  · rcases hfb : f32OfNat (-n).toNat with e | b0
    · rw [hfb] at h
      have h2 : (Except.error e : Except PyErr Nat) = .ok b := h
      exact Except.noConfusion h2
    · rw [hfb] at h
      have h2 : (Except.ok (2147483648 + b0) : Except PyErr Nat) = .ok b := h
      have hb := Except.ok.inj h2
      have := f32OfNat_lt _ _ hfb
      omega

theorem encode_date_eq (d : PDate) (h : d.day < 256 ∧ d.month < 256 ∧ d.year < 65536)
    (h2 : d.day * 16777216 + d.month * 65536 + d.year < 4294967296) :
    encodeByType .date (.date d)
      = .ok [(d.day * 16777216 + d.month * 65536 + d.year) % 65536,
             (d.day * 16777216 + d.month * 65536 + d.year) / 65536] := by
  show encodeDate d = _
  unfold encodeDate
  rw [if_pos h]
  unfold pack32
  rw [if_pos h2]

theorem encode_dtime_eq (ts : Nat) (h : ts < 4294967296) :
    encodeByType .dtime (.dtime (.utc ts)) = .ok [ts % 65536, ts / 65536] := by
  show pack32 ts = _
  unfold pack32
  rw [if_pos h]

/-- C3 counterexample: the 32-bit float codec does not round-trip. The
float `1.5` has IEEE-754 single bit pattern `0x3FC00000` = 1069547520,
but `NumberRegister.encode` applies `int(value)` to a float before
handing it to `add_32bit_float`, so the register words written are those
of `float(1)` = `1.0` (`0x3F800000` = 1065353216), and decoding them
yields `1.0`, not `1.5`. -/
theorem codec_f32_counterexample :
    (encodeByType .f32 (.f32 1069547520)).bind (decodeByType .f32 2)
      = .ok (.f32 1065353216) ∧ 1065353216 ≠ 1069547520 := ⟨rfl, by decide⟩

/-- C3 (amended): Codec round-trip. For every register type (16-bit unsigned and
signed integers, 32-bit unsigned integer, fixed-length string, date,
datetime) and every in-range value, decoding the encoding of the value
yields the value back; and the sentinel `0xFFFFFFFF` date and datetime
register payloads decode, without raising, to the documented sentinels
`datetime.date.min` and `datetime.datetime.min`. The 32-bit float codec
does NOT round-trip: `NumberRegister.encode` truncates a float with
`int(value)` before packing, so decoding the encoding of a float whose
truncation is `fn` and whose repacked bit pattern is `fb2` yields the
float with bit pattern `fb2` — the original value truncated toward zero —
which equals the original float only when its value is an integer. -/
theorem codec_round_trip
    (v16 : Nat) (h16 : v16 < 65536)
    (vi : Int) (hi1 : -32768 ≤ vi) (hi2 : vi < 32768)
    (v32 : Nat) (h32 : v32 < 4294967296)
    (fb : Nat) (fn : Int) (fb2 : Nat)
    (htr : truncF32 fb = .ok fn) (hfi : f32OfInt fn = .ok fb2)
    (len : Nat) (bs : List Nat) (hblen : bs.length = 2 * len)
    (hbyte : ∀ b ∈ bs, b < 256) (hlast : bs.getLast? ≠ some 0)
    (d : PDate) (hd : isValidDate d = true)
    (ts : Nat) (hts : ts < 4294967296) (htsne : ts ≠ 4294967295) :
    ((encodeByType .u16 (.num (v16 : Int))).bind (decodeByType .u16 1)
      = .ok (.num (v16 : Int))) ∧
    ((encodeByType .i16 (.num vi)).bind (decodeByType .i16 1) = .ok (.num vi)) ∧
    ((encodeByType .u32 (.num (v32 : Int))).bind (decodeByType .u32 2)
      = .ok (.num (v32 : Int))) ∧
    ((encodeByType .f32 (.f32 fb)).bind (decodeByType .f32 2) = .ok (.f32 fb2)) ∧
    ((encodeByType .str (.bytes bs)).bind (decodeByType .str len) = .ok (.bytes bs)) ∧
    ((encodeByType .date (.date d)).bind (decodeByType .date 2) = .ok (.date d)) ∧
    ((encodeByType .dtime (.dtime (.utc ts))).bind (decodeByType .dtime 2)
      = .ok (.dtime (.utc ts))) ∧
    decodeByType .date 2 [65535, 65535] = .ok (.date pdateMin) ∧
    decodeByType .dtime 2 [65535, 65535] = .ok (.dtime .dtMin) := by
  refine ⟨?_, ?_, ?_, ?_, ?_, ?_, ?_, rfl, rfl⟩
  · -- u16
    rw [encode_u16_eq _ (by omega) (by omega)]
    show decodeByType .u16 1 [((v16 : Int)).toNat] = _
    rw [Int.toNat_natCast, decode_u16_eq]
  · -- i16
    rw [encode_i16_eq _ hi1 hi2]
    show decodeByType .i16 1 [(vi.emod 65536).toNat] = _
    rw [decode_i16_eq]
    have hmodeq : vi.emod 65536 = vi % 65536 := rfl
    rw [hmodeq]
    congr 2
    split_ifs with hlt <;> omega
  · -- u32
    rw [encode_u32_eq _ (by omega) (by omega)]
    show decodeByType .u32 2 [(v32 : Int).toNat % 65536, (v32 : Int).toNat / 65536] = _
    rw [decode_u32_eq]
    congr 2
    omega
  · -- f32: the encode truncates via int(value), then packs the truncation
    have henc : encodeByType .f32 (.f32 fb) = pack32 fb2 := by
      show (do
        let n ← truncF32 fb
        let b ← f32OfInt n
        pack32 b) = pack32 fb2
      rw [htr]
      show (do
        let b ← f32OfInt fn
        pack32 b) = pack32 fb2
      rw [hfi]
      rfl
    have hlt2 : fb2 < 4294967296 := f32OfInt_lt fn fb2 hfi
    rw [henc]
    unfold pack32
    rw [if_pos hlt2]
    show decodeByType .f32 2 [fb2 % 65536, fb2 / 65536] = _
    rw [decode_f32_eq]
    congr 2
    omega
  · -- string
    obtain ⟨ws, h1, h2, h3⟩ := bytesToWords_spec bs hbyte (by omega)
    have hwlen : ws.length = len := by omega
    have he : encodeByType .str (.bytes bs) = bytesToWords bs := rfl
    rw [he, h1]
    show decodeStr len ws = _
    unfold decodeStr
    rw [if_pos hwlen, h2, rstripZeros_eq_self bs hlast]
  · -- date
    have hb : (1 ≤ d.year ∧ d.year ≤ 9999) ∧ (1 ≤ d.month ∧ d.month ≤ 12) ∧
        (1 ≤ d.day ∧ d.day ≤ daysInMonth d.year d.month) := by
      unfold isValidDate at hd
      simp only [Bool.and_eq_true, decide_eq_true_eq] at hd
      exact ⟨⟨hd.1.1.1.1.1, hd.1.1.1.1.2⟩, ⟨hd.1.1.1.2, hd.1.1.2⟩, ⟨hd.1.2, hd.2⟩⟩
    have hday : d.day ≤ 31 := le_trans hb.2.2.2 (daysInMonth_le _ _)
    rw [encode_date_eq d (by omega) (by omega)]
    show decodeDate _ = _
    rw [decodeDate_cons]
    have hrec : (d.day * 16777216 + d.month * 65536 + d.year) % 65536
        + 65536 * ((d.day * 16777216 + d.month * 65536 + d.year) / 65536)
        = d.day * 16777216 + d.month * 65536 + d.year := Nat.mod_add_div _ _
    rw [hrec]
    rw [if_neg (by omega)]
    have e1 : (d.day * 16777216 + d.month * 65536 + d.year) % 65536 = d.year := by omega
    have e2 : (d.day * 16777216 + d.month * 65536 + d.year) / 65536 % 256 = d.month := by
      omega
    have e3 : (d.day * 16777216 + d.month * 65536 + d.year) / 16777216 = d.day := by omega
    rw [e1, e2, e3]
    have hde : (⟨d.year, d.month, d.day⟩ : PDate) = d := rfl
    rw [hde, if_pos hd]
  · -- datetime
    rw [encode_dtime_eq _ hts]
    show decodeDateTime _ = _
    rw [decodeDateTime_cons, Nat.mod_add_div, if_neg htsne]

/-- Witness for `codec_round_trip` at concrete in-range inputs; the float
input is `1.5` (bits 1069547520), truncating to 1 and repacking as `1.0`
(bits 1065353216). -/
theorem codec_round_trip_witness :
    isValidDate ⟨2024, 2, 29⟩ = true ∧
    ((encodeByType .date (.date ⟨2024, 2, 29⟩)).bind (decodeByType .date 2)
      = .ok (.date ⟨2024, 2, 29⟩)) ∧
    ((encodeByType .i16 (.num (-5))).bind (decodeByType .i16 1) = .ok (.num (-5))) ∧
    ((encodeByType .f32 (.f32 1069547520)).bind (decodeByType .f32 2)
      = .ok (.f32 1065353216)) ∧
    ((encodeByType .str (.bytes [104, 105, 33, 65])).bind (decodeByType .str 2)
      = .ok (.bytes [104, 105, 33, 65])) :=
  have h := codec_round_trip 7 (by decide) (-5) (by decide) (by decide)
    70000 (by decide) 1069547520 1 1065353216 rfl rfl
    2 [104, 105, 33, 65] (by decide)
    (by decide) (by decide) ⟨2024, 2, 29⟩ (by decide)
    1700000000 (by decide) (by decide)
  ⟨by decide, h.2.2.2.2.2.1, h.2.1, h.2.2.2.1, h.2.2.2.2.1⟩

/-! ## Batch Reader grouping lemmas -/

theorem chunksFrom_shape : (r : RegInfo) → (rs : List RegInfo) →
    ∃ c cs, chunksFrom r rs = (r :: c) :: cs
  | _, [] => ⟨[], [], rfl⟩
  | r, s :: rs => by
    obtain ⟨c, cs, h⟩ := chunksFrom_shape s rs
    have hstep : chunksFrom r (s :: rs)
        = if contig r s then (r :: s :: c) :: cs else [r] :: (s :: c) :: cs := by
      show (match chunksFrom s rs with
        | [] => [[r]]
        | c :: cs => if contig r s then (r :: c) :: cs else [r] :: c :: cs) = _
      rw [h]
    by_cases hc : contig r s = true
    · exact ⟨s :: c, cs, by rw [hstep, if_pos hc]⟩
    · exact ⟨[], (s :: c) :: cs, by rw [hstep, if_neg hc]⟩

theorem chunksFrom_flatten : (r : RegInfo) → (rs : List RegInfo) →
    (chunksFrom r rs).flatten = r :: rs
  | _, [] => rfl
  | r, s :: rs => by
    have ih := chunksFrom_flatten s rs
    obtain ⟨c, cs, h⟩ := chunksFrom_shape s rs
    rw [h] at ih
    show (match chunksFrom s rs with
      | [] => [[r]]
      | c :: cs => if contig r s then (r :: c) :: cs else [r] :: c :: cs).flatten
      = r :: s :: rs
    rw [h]
    dsimp only
    by_cases hc : contig r s = true
    · rw [if_pos hc]
      rw [show ((r :: s :: c) :: cs).flatten = r :: ((s :: c) :: cs).flatten from rfl, ih]
    · rw [if_neg hc]
      rw [show ([r] :: (s :: c) :: cs).flatten = r :: ((s :: c) :: cs).flatten from rfl, ih]

theorem chunksFrom_mem : (r : RegInfo) → (rs : List RegInfo) →
    ∀ c ∈ chunksFrom r rs, c ≠ [] ∧ c.Chain' (fun a b => contig a b = true)
  | r, [], c, hc => by
    simp only [chunksFrom, List.mem_singleton] at hc
    subst hc
    exact ⟨by simp, List.chain'_singleton r⟩
  | r, s :: rs, c, hc => by
    obtain ⟨c0, cs0, h⟩ := chunksFrom_shape s rs
    have ih := chunksFrom_mem s rs
    rw [h] at ih
    rw [show chunksFrom r (s :: rs) = (match chunksFrom s rs with
      | [] => [[r]]
      | c :: cs => if contig r s then (r :: c) :: cs else [r] :: c :: cs) from rfl, h] at hc
    dsimp only at hc
    by_cases hcg : contig r s = true
    · rw [if_pos hcg] at hc
      rcases List.mem_cons.mp hc with heq | hmem
      · subst heq
        have hin := ih (s :: c0) (List.mem_cons_self _ _)
        refine ⟨by simp, ?_⟩
        rw [List.chain'_cons]
        exact ⟨hcg, hin.2⟩
      · exact ih c (List.mem_cons_of_mem _ hmem)
    · rw [if_neg hcg] at hc
      rcases List.mem_cons.mp hc with heq | hmem
      · subst heq
        exact ⟨by simp, List.chain'_singleton r⟩
      · exact ih c hmem

theorem chunksFrom_boundary : (r : RegInfo) → (rs : List RegInfo) →
    (chunksFrom r rs).Chain' chunkBoundary
  | _, [] => List.chain'_singleton _
  | r, s :: rs => by
    obtain ⟨c0, cs0, h⟩ := chunksFrom_shape s rs
    have ih := chunksFrom_boundary s rs
    rw [h] at ih
    show (match chunksFrom s rs with
      | [] => [[r]]
      | c :: cs => if contig r s then (r :: c) :: cs else [r] :: c :: cs).Chain'
        chunkBoundary
    rw [h]
    dsimp only
    by_cases hcg : contig r s = true
    · rw [if_pos hcg]
      rcases cs0 with _ | ⟨c1, cs1⟩
      · exact List.chain'_singleton _
      · rw [List.chain'_cons] at ih ⊢
        refine ⟨?_, ih.2⟩
        intro a b hla hhb
        refine ih.1 a b ?_ hhb
        rw [← hla]
        rfl
    · rw [if_neg hcg]
      rw [List.chain'_cons]
      refine ⟨?_, ih⟩
      intro a b hla hhb
      simp only [List.getLast?_singleton, Option.some.injEq] at hla
      simp only [List.head?_cons, Option.some.injEq] at hhb
      subst hla; subst hhb
      exact Bool.eq_false_iff.mpr hcg

theorem chunksOf_flatten (regs : List RegInfo) : (chunksOf regs).flatten = regs := by
  cases regs with
  | nil => rfl
  | cons r rs => exact chunksFrom_flatten r rs

theorem chunksOf_mem (regs : List RegInfo) :
    ∀ c ∈ chunksOf regs, c ≠ [] ∧ c.Chain' (fun a b => contig a b = true) := by
  cases regs with
  | nil => intro c hc; simp [chunksOf] at hc
  | cons r rs => exact chunksFrom_mem r rs

theorem chunksOf_boundary (regs : List RegInfo) :
    (chunksOf regs).Chain' chunkBoundary := by
  cases regs with
  | nil => exact List.chain'_nil
  | cons r rs => exact chunksFrom_boundary r rs

theorem contigOk_of_chain : (c : List RegInfo) →
    c.Chain' (fun a b => contig a b = true) → contigOk c = true
  | [], _ => rfl
  | [_], _ => rfl
  | a :: b :: rs, h => by
    rw [List.chain'_cons] at h
    show (contig a b && contigOk (b :: rs)) = true
    rw [h.1, contigOk_of_chain (b :: rs) h.2]
    rfl

/-- C1: Batch Reader run partitioning. `get_multiple` partitions an
ordered-by-address list of read-capable registers into runs so that a
register continues the current run exactly when its address equals the
previous register's address plus its word length (runs cover the list in
order, each run is chained by contiguity, and adjacent runs are separated
by a genuine break); for registers at (address, length) pairs (10,1),
(11,1), (12,2), (20,1) it produces exactly the two runs {10, 11, 12} and
{20} and issues exactly two underlying bulk reads, spanning [10, 14) and
[20, 21). -/
theorem batch_run_partitioning :
    (∀ regs : List RegInfo, (chunksOf regs).flatten = regs) ∧
    (∀ regs : List RegInfo, ∀ c ∈ chunksOf regs,
      c ≠ [] ∧ c.Chain' (fun a b => contig a b = true)) ∧
    (∀ regs : List RegInfo, (chunksOf regs).Chain' chunkBoundary) ∧
    (chunksOf exampleRegs).map (List.map RegInfo.prop) = [[1, 2, 3], [4]] ∧
    (get_multiple chanZero exampleRegs 5).2 = [.read 10 4 5, .read 20 1 5] ∧
    (get_multiple chanZero exampleRegs 5).1.isOk = true :=
  ⟨chunksOf_flatten, chunksOf_mem, chunksOf_boundary, by decide, by decide, by decide⟩

/-- Witness for `batch_run_partitioning`: the first run of the example. -/
theorem batch_run_partitioning_witness :
    [regA10, regA11, regA12] ∈ chunksOf exampleRegs ∧
    ([regA10, regA11, regA12] ≠ [] ∧
      List.Chain' (fun a b => contig a b = true) [regA10, regA11, regA12]) :=
  ⟨by decide, batch_run_partitioning.2.1 exampleRegs _ (by decide)⟩

/-- C4: Capability enforcement. Reading a descriptor without the Read
capability, or writing one without the Write capability, always fails
before any channel I/O (the command trace is empty) with an error of the
spec's InvalidArgument kind (the code raises Python's `ValueError` for
this precondition violation). -/
theorem capability_enforcement (rch : RChan) (wch : WChan) (r1 r2 : RegInfo)
    (v : RVal) (dev : Nat) (h1 : r1.canRead = false) (h2 : r2.canWrite = false) :
    get_register rch r1 dev = (.error .valueError, []) ∧
    set_register wch r2 v dev = (.error .valueError, []) ∧
    errKind .valueError = .invalidArgumentKind := by
  refine ⟨?_, ?_, rfl⟩
  · unfold get_register
    rw [h1]
    rfl
  · unfold set_register
    rw [h2]
    rfl

/-- Witness for `capability_enforcement`: the write-only RESET_DEVICE
register cannot be read and the read-only UPTIME register cannot be
written. -/
theorem capability_enforcement_witness :
    regWriteOnly.canRead = false ∧ regReadOnly.canWrite = false ∧
    (get_register chanZero regWriteOnly 207 = (.error .valueError, []) ∧
      set_register wchanTrue regReadOnly (.num 1) 207 = (.error .valueError, []) ∧
      errKind .valueError = .invalidArgumentKind) :=
  ⟨by decide, by decide,
    capability_enforcement chanZero wchanTrue regWriteOnly regReadOnly (.num 1) 207
      (by decide) (by decide)⟩

/-- C10: `get_multiple` validation. Calling `get_multiple` with an empty
register list raises `AiriosInvalidArgumentException` before any channel
I/O, and a register list containing a non-read-capable register raises
(`ValueError`) before any channel I/O: in both cases the command trace is
empty, so the channel and device are untouched. -/
theorem get_multiple_validation (rch : RChan) (regs : List RegInfo) (dev : Nat)
    (r : RegInfo) (hmem : r ∈ regs) (hr : r.canRead = false) :
    get_multiple rch [] dev = (.error .invalidArgument, []) ∧
    get_multiple rch regs dev = (.error .valueError, []) ∧
    errKind .invalidArgument = .invalidArgumentKind := by
  refine ⟨rfl, ?_, rfl⟩
  unfold get_multiple
  have hne : regs.isEmpty = false := by
    cases regs with
    | nil => cases hmem
    | cons a l => rfl
  have hany : regs.any (fun x => ¬ x.canRead) = true := by
    rw [List.any_eq_true]
    exact ⟨r, hmem, by simp [hr]⟩
  rw [hne, hany]
  rfl

/-- Witness for `get_multiple_validation`. -/
theorem get_multiple_validation_witness :
    regWriteOnly ∈ [regA10, regWriteOnly] ∧ regWriteOnly.canRead = false ∧
    (get_multiple chanZero [] 207 = (.error .invalidArgument, []) ∧
      get_multiple chanZero [regA10, regWriteOnly] 207 = (.error .valueError, []) ∧
      errKind .invalidArgument = .invalidArgumentKind) :=
  ⟨by decide, by decide,
    get_multiple_validation chanZero [regA10, regWriteOnly] 207 regWriteOnly
      (by decide) (by decide)⟩

theorem runOps_nil (now ts : ℚ) : runOps now ts [] = [] := rfl

theorem runOps_read (now ts d : ℚ) (ops : List OpReq) :
    runOps now ts (⟨true, d⟩ :: ops)
      = (true, issueTime ts now)
        :: runOps (issueTime ts now + d) (issueTime ts now + d) ops := rfl

theorem runOps_write (now ts d : ℚ) (ops : List OpReq) :
    runOps now ts (⟨false, d⟩ :: ops) = (false, now) :: runOps (now + d) ts ops := rfl

theorem readIssues_nil : readIssues [] = [] := rfl

theorem readIssues_cons_read (t : ℚ) (l : List (Bool × ℚ)) :
    readIssues ((true, t) :: l) = t :: readIssues l := rfl

theorem readIssues_cons_write (t : ℚ) (l : List (Bool × ℚ)) :
    readIssues ((false, t) :: l) = readIssues l := rfl

/-- The pacing check of `_read_registers` never lets a read out before
`ts + MIN_TIME_BETWEEN_COMMANDS`. -/
theorem issueTime_ge (ts now : ℚ) :
    ts + minTimeBetweenCommands ≤ issueTime ts now := by
  unfold issueTime
  split_ifs with h
  · linarith
  · linarith

/-- In any back-to-back run, every read command is issued at least the
minimum delay after the initially recorded timestamp, and consecutive
read commands are at least the minimum delay apart. -/
theorem runOps_reads_paced (ops : List OpReq) :
    ∀ now ts : ℚ, (∀ op ∈ ops, 0 ≤ op.dur) →
      (∀ t ∈ readIssues (runOps now ts ops), ts + minTimeBetweenCommands ≤ t) ∧
      List.Chain' (fun a b => a + minTimeBetweenCommands ≤ b)
        (readIssues (runOps now ts ops)) := by
  induction ops with
  | nil =>
    intro now ts _
    rw [runOps_nil, readIssues_nil]
    exact ⟨fun t ht => absurd ht (List.not_mem_nil t), List.chain'_nil⟩
  | cons op ops ih =>
    intro now ts hd
    have hdur : (0 : ℚ) ≤ op.dur := hd op (List.mem_cons_self op ops)
    have hdtail : ∀ o ∈ ops, (0 : ℚ) ≤ o.dur := fun o ho => hd o (List.mem_cons_of_mem op ho)
    rcases op with ⟨ir, d⟩
    cases ir with
    | false =>
      rw [runOps_write, readIssues_cons_write]
      exact ih (now + d) ts hdtail
    | true =>
      rw [runOps_read, readIssues_cons_read]
      have hiss := issueTime_ge ts now
      obtain ⟨ih1, ih2⟩ := ih (issueTime ts now + d) (issueTime ts now + d) hdtail
      constructor
      · intro t ht
        rcases List.mem_cons.mp ht with h | h
        · rw [h]
          exact hiss
        · have h2 := ih1 t h
          have hd2 : (0 : ℚ) ≤ d := hdur
          have hpos : (0 : ℚ) ≤ minTimeBetweenCommands := by
            norm_num [minTimeBetweenCommands]
          linarith
      · rw [List.chain'_cons']
        refine ⟨?_, ih2⟩
        intro b hb
        have hbm := List.mem_of_mem_head? hb
        have h2 := ih1 b hbm
        have hd2 : (0 : ℚ) ≤ d := hdur
        show issueTime ts now + minTimeBetweenCommands ≤ b
        linarith

/-- C9 counterexample: writes are not paced. With recorded timestamp 0
and current time 1, a read issues at time 1 and records `ts = 1`; a write
submitted immediately afterwards also issues at time 1 — two consecutive
commands separated by 0 < 10 ms at the channel boundary, because
`_write_registers` has no pacing sleep. -/
theorem command_pacing_counterexample :
    runOps 1 0 [⟨true, 0⟩, ⟨false, 0⟩] = [(true, 1), (false, 1)] ∧
    ¬ ((1 : ℚ) + minTimeBetweenCommands ≤ 1) := by
  constructor
  · rw [runOps_read, runOps_write, runOps_nil]
    have hiss : issueTime 0 1 = 1 := by
      unfold issueTime
      rw [if_neg (by norm_num [minTimeBetweenCommands])]
    rw [hiss]
    norm_num
  · norm_num [minTimeBetweenCommands]

/-- C9 (amended): Command pacing. The minimum inter-command delay is
10 ms, but only reads are paced: `_write_registers` neither sleeps nor
updates the client's recorded timestamp, so a write is issued at the
current time immediately and leaves the pacing state untouched (second
conjunct, an exact unfolding of the run). What the pacing does guarantee:
in every back-to-back run of operations, each read command reaches the
channel boundary at least the minimum delay after the initially recorded
timestamp, and consecutive read commands are separated by at least the
minimum delay — intervening writes do not reset the pacing timestamp. -/
theorem command_pacing (ops : List OpReq)
    (hdur : ∀ op ∈ ops, (0 : ℚ) ≤ op.dur) (now ts : ℚ) :
    minTimeBetweenCommands = 1 / 100 ∧
    (∀ (d : ℚ) (ops2 : List OpReq), runOps now ts (⟨false, d⟩ :: ops2)
      = (false, now) :: runOps (now + d) ts ops2) ∧
    (∀ t ∈ readIssues (runOps now ts ops), ts + minTimeBetweenCommands ≤ t) ∧
    List.Chain' (fun a b => a + minTimeBetweenCommands ≤ b)
      (readIssues (runOps now ts ops)) := by
  obtain ⟨h1, h2⟩ := runOps_reads_paced ops now ts hdur
  exact ⟨rfl, fun d ops2 => runOps_write now ts d ops2, h1, h2⟩

/-- Witness for `command_pacing`: a read-write-read run from time 0. -/
theorem command_pacing_witness :
    (∀ t ∈ readIssues (runOps 0 0 [⟨true, 0⟩, ⟨false, 0⟩, ⟨true, 0⟩]),
      (0 : ℚ) + minTimeBetweenCommands ≤ t) ∧
    List.Chain' (fun a b => a + minTimeBetweenCommands ≤ b)
      (readIssues (runOps 0 0 [⟨true, 0⟩, ⟨false, 0⟩, ⟨true, 0⟩])) :=
  (command_pacing [⟨true, 0⟩, ⟨false, 0⟩, ⟨true, 0⟩]
    (by
      intro op h
      simp only [List.mem_cons, List.not_mem_nil, or_false] at h
      rcases h with h | h | h <;> rw [h]) 0 0).2.2

/-- C5 counterexample: the claim says the flags field occupies 4 bits of
the status word, but for the status word `0x4025` (bit 14 set) decoding
succeeds with flags value 64 = `NEW_VALUE`, which does not fit in 4 bits:
the flags mask `0xCF` spans bits 8-11 and 14-15 of the word. -/
theorem status_flags_counterexample :
    decodeStatusWord 16421 = .ok ⟨37, 0, 64⟩ ∧ ¬ (64 < 16) := by
  refine ⟨rfl, by decide⟩

/-- C5 (amended): Status-word decoding. For every 16-bit status word,
written as `age + 128 * hoursBit + 256 * flagsNibble + 4096 * source +
16384 * topFlagBits` (so `age` is the low 7 bits, bit 7 the seconds/hours
selector, bits 8-11 the low flags nibble, bits 12-13 the source and bits
14-15 the top flag bits): the decoded age is the low 7 bits multiplied by
3600 when bit 7 is set; the source is the 2-bit field, whose value 3 is
outside the documented enum and raises; the flags are taken from the 6
masked bits 8-11 and 14-15 (`0xCF`), where bit 15 is outside the five
documented flags and raises. -/
theorem status_word_decoding (a h7 fn s2 ftop : Nat)
    (ha : a < 128) (hh : h7 < 2) (hfn : fn < 16) (hs : s2 < 4) (hft : ftop < 4) :
    decodeStatusWord (a + 128 * h7 + 256 * fn + 4096 * s2 + 16384 * ftop)
      = (if 2 ≤ ftop then .error .valueError
         else if s2 = 3 then .error .valueError
         else .ok ⟨(if h7 = 1 then a * 3600 else a), s2, fn + ftop * 64⟩) := by
  have key : ∀ w : Nat, w % 128 = a → w / 128 % 2 = h7 → w / 256 % 16 = fn →
      w / 16384 % 4 = ftop → w / 4096 % 4 = s2 →
      decodeStatusWord w
        = (if 2 ≤ ftop then .error .valueError
           else if s2 = 3 then .error .valueError
           else .ok ⟨(if h7 = 1 then a * 3600 else a), s2, fn + ftop * 64⟩) := by
    intro w e1 e2 e3 e4 e5
    unfold decodeStatusWord
    rw [e1, e2, e3, e4, e5]
    show (if 128 ≤ fn + ftop * 64 then (Except.error .valueError : Except PyErr StatusRec)
      else if 3 ≤ s2 then .error .valueError
      else .ok ⟨if h7 = 1 then a * 3600 else a, s2, fn + ftop * 64⟩) = _
    split_ifs <;> first | rfl | (exfalso; omega)
  exact key _ (by omega) (by omega) (by omega) (by omega) (by omega)

/-- Witness for `status_word_decoding` at the status word with age 37,
hours bit 1, flags nibble 1, source 1 and top flag bits 1. -/
theorem status_word_decoding_witness :
    (37 < 128 ∧ 1 < 2 ∧ 1 < 16 ∧ 1 < 4 ∧ 1 < 4) ∧
    decodeStatusWord (37 + 128 * 1 + 256 * 1 + 4096 * 1 + 16384 * 1)
      = (if 2 ≤ 1 then .error .valueError
         else if 1 = 3 then .error .valueError
         else .ok ⟨(if 1 = 1 then 37 * 3600 else 37), 1, 1 + 1 * 64⟩) :=
  ⟨by decide,
    status_word_decoding 37 1 1 1 1 (by decide) (by decide) (by decide)
      (by decide) (by decide)⟩

/-! ## Single-register step lemmas -/

theorem set_register_ok (wch : WChan) (r : RegInfo) (dev : Nat) (v : RVal)
    (ws : List Nat) (b : Bool)
    (hw : r.canWrite = true) (henc : encodeByType r.rtype v = .ok ws)
    (hch : wch r.addr ws dev = .ok b) :
    set_register wch r v dev = (.ok b, [.write r.addr ws dev]) := by
  unfold set_register
  rw [hw]
  simp only [not_true_eq_false, if_false, henc, hch]

theorem applyAdapt_none (r : RegInfo) (h : r.adapt = none) (v : RVal) :
    applyAdapt r v = .ok v := by
  unfold applyAdapt
  rw [h]

theorem get_register_plain_ok (rch : RChan) (r : RegInfo) (dev : Nat) (ws : List Nat)
    (v : RVal)
    (hr : r.canRead = true) (hst : r.hasStatus = false) (had : r.adapt = none)
    (hch : rch r.addr r.len dev = .ok ws) (hlen : ws.length = r.len)
    (hdec : decodeReg r ws = .ok v) :
    get_register rch r dev = (.ok ⟨some v, none⟩, [.read r.addr r.len dev]) := by
  have hbind : decodeReg r ws >>= applyAdapt r = .ok v := by
    rw [hdec]
    show applyAdapt r v = .ok v
    exact applyAdapt_none r had v
  unfold get_register readRegisters
  rw [hr]
  simp only [not_true_eq_false, if_false, hch, hlen, if_pos rfl, if_true, hst]
  rw [hbind]
  rfl

theorem get_register_err (rch : RChan) (r : RegInfo) (dev : Nat) (e : PyErr)
    (hr : r.canRead = true) (hch : rch r.addr r.len dev = .error e) :
    get_register rch r dev = (.error e, [.read r.addr r.len dev]) := by
  unfold get_register readRegisters
  rw [hr]
  simp only [not_true_eq_false, if_false, hch]

/-- C6: Binding precondition gate. When the target address is admissible,
the initial Abort write succeeds, and the binding-status register then
reads a non-zero value, `bind_controller` raises `AiriosBindingException`
having written only the Abort command: the observed channel trace is
exactly the Abort write followed by the status read, and in particular the
binding-product-id (43000), create-node (43005), binding-product-serial
(43002) registers and the binding-command register (again) are never
written. -/
theorem bind_controller_precondition (rch : RChan) (wch : WChan)
    (selfId slaveId productIdv : Nat) (serial : Option Nat) (v : Nat)
    (h1 : 2 ≤ slaveId) (h2 : slaveId ≤ 247) (h3 : slaveId ≠ selfId)
    (habort : wch 43004 [200] selfId = .ok true)
    (hstat : rch 43900 1 selfId = .ok [v]) (hv : v ≠ 0) :
    bind_controller rch wch selfId slaveId productIdv serial
      = (.error .binding, [.write 43004 [200] selfId, .read 43900 1 selfId]) ∧
    ∀ cmd ∈ (bind_controller rch wch selfId slaveId productIdv serial).2,
      cmd.isWrite = true → cmd = .write 43004 [200] selfId := by
  have habort2 : wch regBindingCommand.addr [200] selfId = .ok true := habort
  have hw : set_register wch regBindingCommand (.num (bindingModeAbort : Nat)) selfId
      = (.ok true, [.write 43004 [200] selfId]) :=
    set_register_ok wch regBindingCommand selfId _ [200] true rfl rfl habort2
  have hstat2 : rch regActualBindingStatus.addr regActualBindingStatus.len selfId
      = .ok [v] := hstat
  have hg : get_register rch regActualBindingStatus selfId
      = (.ok ⟨some (.num (v : Int)), none⟩, [.read 43900 1 selfId]) :=
    get_register_plain_ok rch regActualBindingStatus selfId [v] (.num (v : Int))
      rfl rfl rfl hstat2 rfl rfl
  have hmain : bind_controller rch wch selfId slaveId productIdv serial
      = (.error .binding, [.write 43004 [200] selfId, .read 43900 1 selfId]) := by
    unfold bind_controller
    rw [if_neg (by omega), if_neg h3, hw]
    simp only [not_true_eq_false, if_false, hg]
    rw [if_neg (by
      intro hcontra
      apply hv
      have h5 := Option.some.inj hcontra
      have h4 := RVal.num.inj h5
      omega)]
    rfl
  refine ⟨hmain, ?_⟩
  rw [hmain]
  intro cmd hc hcw
  simp only [List.mem_cons, List.not_mem_nil, or_false] at hc
  rcases hc with h | h
  · exact h
  · rw [h] at hcw
    exact absurd hcw (by intro hfalse; cases hfalse)

/-- Witness for `bind_controller_precondition`: gateway 207, target 5,
binding-status reading 2. -/
theorem bind_controller_precondition_witness :
    (2 ≤ 5 ∧ 5 ≤ 247 ∧ 5 ≠ 207 ∧ wchanTrue 43004 [200] 207 = .ok true ∧
      chanStatus2 43900 1 207 = .ok [2] ∧ 2 ≠ 0) ∧
    bind_controller chanStatus2 wchanTrue 207 5 116882 none
      = (.error .binding, [.write 43004 [200] 207, .read 43900 1 207]) :=
  ⟨⟨by decide, by decide, by decide, rfl, rfl, by decide⟩,
    (bind_controller_precondition chanStatus2 wchanTrue 207 5 116882 none 2
      (by decide) (by decide) (by decide) rfl rfl (by decide)).1⟩

/-- C7 counterexample: the contiguous-run batching algorithm `get_multiple`
does not sort the presented list by address before grouping: presenting
registers (20,1), (10,1) in that order yields different runs — and
different underlying bulk reads, in presentation order — than their sorted
order would. -/
theorem batch_sorting_counterexample :
    List.Pairwise (fun a b : RegInfo => a.addr ≤ b.addr) [regA10, regA20] ∧
    List.Perm [regA20, regA10] [regA10, regA20] ∧
    chunksOf [regA20, regA10] ≠ chunksOf [regA10, regA20] ∧
    (get_multiple chanZero [regA20, regA10] 5).2 = [.read 20 1 5, .read 10 1 5] ∧
    (get_multiple chanZero [regA10, regA20] 5).2 = [.read 10 1 5, .read 20 1 5] :=
  ⟨by decide, by decide, by decide, by decide, by decide⟩

/-- C7 (amended): the batching algorithm itself does not sort; it groups
the presented list in presentation order (the runs flatten back to the
presented list). Every run it produces still satisfies the contiguity
precondition checked by the bulk-read helper `_get_multiple`, so the
grouping works for every presentation order (the out-of-order example
fetch succeeds); sorting by address happens instead when the device's
register table is built, in `AiriosDevice._add_registers`. -/
theorem batch_order_handling (regs : List RegInfo) (d : DeviceT) (rl : List RegInfo) :
    (chunksOf regs).flatten = regs ∧
    (∀ c ∈ chunksOf regs, contigOk c = true) ∧
    (get_multiple chanZero [regA20, regA10] 5).1.isOk = true ∧
    (get_multiple chanZero [regA10, regA20] 5).1.isOk = true ∧
    List.Pairwise (fun a b => a.addr ≤ b.addr) ((_add_registers d rl).registers) ∧
    ((_add_registers d rl).registers).Perm (d.registers ++ rl) := by
  refine ⟨chunksOf_flatten regs, ?_, by decide, by decide, ?_, ?_⟩
  · intro c hc
    exact contigOk_of_chain c (chunksOf_mem regs c hc).2
  · have hs := @List.sorted_mergeSort RegInfo
      (fun a b : RegInfo => decide (a.addr ≤ b.addr))
      (fun a b c hab hbc => by
        simp only [decide_eq_true_eq] at hab hbc ⊢
        omega)
      (fun a b => by
        simp only [Bool.or_eq_true, decide_eq_true_eq]
        omega)
      (d.registers ++ rl)
    exact hs.imp (fun h => by simpa using h)
  · exact List.mergeSort_perm (d.registers ++ rl) _

/-- Witness for `batch_order_handling`: the first run of the example list
satisfies the bulk-read contiguity precondition. -/
theorem batch_order_handling_witness :
    [regA10, regA11, regA12] ∈ chunksOf exampleRegs ∧
    contigOk [regA10, regA11, regA12] = true :=
  ⟨by decide,
    (batch_order_handling exampleRegs ⟨5, []⟩ []).2.1 [regA10, regA11, regA12]
      (by decide)⟩

/-! ## Node directory scan lemmas -/

theorem mkNodesChan_slot (selfId : Nat) (slotVal pid rf : Nat → Nat) (i : Nat)
    (hi : i < 32) :
    mkNodesChan selfId slotVal pid rf (43902 + i) 1 selfId = .ok [slotVal i] := by
  unfold mkNodesChan
  rw [if_pos ⟨rfl, by omega, by omega, rfl⟩]
  have h9 : 43902 + i - 43902 = i := by omega
  rw [h9]

theorem mkNodesChan_pid (selfId : Nat) (slotVal pid rf : Nat → Nat) (s : Nat) :
    mkNodesChan selfId slotVal pid rf 40002 2 s
      = .ok [pid s % 65536, pid s / 65536] := by
  unfold mkNodesChan
  rw [if_neg (by omega), if_pos ⟨rfl, rfl⟩]

theorem mkNodesChan_rf (selfId : Nat) (slotVal pid rf : Nat → Nat) (s : Nat) :
    mkNodesChan selfId slotVal pid rf 40000 2 s
      = .ok [rf s % 65536, rf s / 65536] := by
  unfold mkNodesChan
  rw [if_neg (by omega), if_neg (by omega), if_pos ⟨rfl, rfl⟩]

theorem decodeReg_u32_value (r : RegInfo) (hty : r.rtype = .u32) (x : Nat) :
    decodeReg r [x % 65536, x / 65536] = .ok (.num x) := by
  unfold decodeReg
  rw [hty, decode_u32_eq]
  have h9 : ((x % 65536 : Nat) + 65536 * ((x / 65536 : Nat)) : Int) = (x : Int) := by
    omega
  rw [h9]

theorem nodes_go_spec (selfId : Nat) (slotVal pid rf : Nat → Nat) :
    ∀ l : List Nat, (∀ i ∈ l, i < 32) →
    nodes_go (mkNodesChan selfId slotVal pid rf) selfId (l.map slotReg)
      = (.ok (nodesSpec slotVal pid rf l), nodesSpecTrace selfId slotVal pid l)
  | [], _ => rfl
  | i :: l, hbound => by
    have hi : i < 32 := hbound i (List.mem_cons_self _ _)
    have ih := nodes_go_spec selfId slotVal pid rf l
      (fun j hj => hbound j (List.mem_cons_of_mem _ hj))
    have hg1 : get_register (mkNodesChan selfId slotVal pid rf) (slotReg i) selfId
        = (.ok ⟨some (.num (slotVal i : Int)), none⟩, [.read (43902 + i) 1 selfId]) :=
      get_register_plain_ok _ _ _ [slotVal i] (.num (slotVal i : Int)) rfl rfl rfl
        (mkNodesChan_slot selfId slotVal pid rf i hi) rfl rfl
    have hg2 : get_register (mkNodesChan selfId slotVal pid rf) regNodeProductId (slotVal i)
        = (.ok ⟨some (.num (pid (slotVal i) : Int)), none⟩, [.read 40002 2 (slotVal i)]) :=
      get_register_plain_ok _ _ _ [pid (slotVal i) % 65536, pid (slotVal i) / 65536]
        (.num (pid (slotVal i) : Int)) rfl rfl rfl
        (mkNodesChan_pid selfId slotVal pid rf (slotVal i)) rfl
        (decodeReg_u32_value _ rfl _)
    have hg3 : get_register (mkNodesChan selfId slotVal pid rf) regNodeRfAddress (slotVal i)
        = (.ok ⟨some (.num (rf (slotVal i) : Int)), none⟩, [.read 40000 2 (slotVal i)]) :=
      get_register_plain_ok _ _ _ [rf (slotVal i) % 65536, rf (slotVal i) / 65536]
        (.num (rf (slotVal i) : Int)) rfl rfl rfl
        (mkNodesChan_rf selfId slotVal pid rf (slotVal i)) rfl
        (decodeReg_u32_value _ rfl _)
    show nodes_go (mkNodesChan selfId slotVal pid rf) selfId (slotReg i :: l.map slotReg) = _
    rw [nodes_go]
    rw [hg1]
    by_cases hz : slotVal i = 0
    · simp only [hz, Nat.cast_zero, if_pos rfl, ih]
      simp [nodesSpec, nodesSpecTrace, hz]
    · have hznz : ¬ ((slotVal i : Int) = 0) := by
        simpa using hz
      simp only [if_neg hznz]
      have htonat : ((slotVal i : Int)).toNat = slotVal i := Int.toNat_natCast _
      rw [htonat, hg2]
      cases hparse : parseProductId ((pid (slotVal i) : Nat) : Int) with
      | none =>
        simp only [hparse, ih]
        simp [nodesSpec, nodesSpecTrace, hz, hparse]
      | some p =>
        simp only [hparse, hg3, ih]
        simp [nodesSpec, nodesSpecTrace, hz, hparse]

/-- C8 counterexample: `nodes()` does not issue one bulk read of the
32-slot table: in the demo scenario (slots 12, 45, 99 populated) its
channel trace contains no 32-word read of the slot table but 32 separate
single-register reads over the slot addresses 43902..43933; the scan still
returns the resolved entries in slot order with the unparseable slot 45
omitted. -/
theorem node_directory_counterexample :
    (Cmd.read 43902 32 207) ∉ (nodes demoNodesChan 207).2 ∧
    ((nodes demoNodesChan 207).2.filter
      (fun c => match c with
        | .read a _ _ => decide (43902 ≤ a ∧ a < 43934)
        | _ => false)).length = 32 ∧
    (nodes demoNodesChan 207).1
      = .ok [⟨12, 116882, 120⟩, ⟨99, 116798, 990⟩] :=
  ⟨by decide, by decide, rfl⟩

/-- C8 (amended): Node Directory scan. Over a channel holding a slot
table, per-device product identities and radio addresses, `nodes()` reads
the 32 fixed node-address slot registers with 32 individual single-word
reads (not one bulk read), and for each slot whose value is non-zero
issues two further single reads against that slot's device address — its
product-identity register (40002), then its radio-address register
(40000), the latter skipped when the product identity is unparseable. A
slot equal to 0 is skipped, an unparseable product identity omits only
that slot without aborting the scan, and the result is the list of
resolved `BoundNodeInfo` entries in slot order — as described slot by slot
by `nodesSpec` and `nodesSpecTrace` over `List.range 32`. -/
theorem node_directory_scan (selfId : Nat) (slotVal pid rf : Nat → Nat) :
    nodes (mkNodesChan selfId slotVal pid rf) selfId
      = (.ok (nodesSpec slotVal pid rf (List.range 32)),
         nodesSpecTrace selfId slotVal pid (List.range 32)) := by
  show nodes_go _ selfId slotRegsList = _
  have h9 : slotRegsList = (List.range 32).map slotReg := rfl
  rw [h9]
  exact nodes_go_spec selfId slotVal pid rf (List.range 32)
    (fun i hi => List.mem_range.mp hi)

/-! ## Result-map lemmas -/

theorem setEntries_append (m : DataMap) (l1 l2 : List (Nat × ResultV)) :
    setEntries m (l1 ++ l2) = setEntries (setEntries m l1) l2 :=
  List.foldl_append _ _ _ _

theorem setEntries_not_mem (m : DataMap) :
    ∀ (l : List (Nat × ResultV)) (p : Nat), p ∉ l.map Prod.fst →
    setEntries m l p = m p := by
  intro l
  induction l generalizing m with
  | nil => intro p _; rfl
  | cons kv rest ih =>
    intro p hp
    simp only [List.map_cons, List.mem_cons] at hp
    push_neg at hp
    show setEntries (setEntry m kv) rest p = m p
    rw [ih (setEntry m kv) p hp.2]
    unfold setEntry
    rw [if_neg hp.1]

theorem setEntries_mem (m : DataMap) :
    ∀ (l : List (Nat × ResultV)) (p : Nat) (v : ResultV),
    (p, v) ∈ l → (l.map Prod.fst).Nodup → setEntries m l p = some v := by
  intro l
  induction l generalizing m with
  | nil => intro p v hmem; cases hmem
  | cons kv rest ih =>
    intro p v hmem hnd
    simp only [List.map_cons, List.nodup_cons] at hnd
    rcases List.mem_cons.mp hmem with heq | hmem'
    · subst heq
      show setEntries (setEntry m (p, v)) rest p = some v
      rw [setEntries_not_mem _ rest p hnd.1]
      unfold setEntry
      rw [if_pos rfl]
    · exact ih (setEntry m kv) p v hmem' hnd.2

theorem setEntries_none_of_not_mem (l : List (Nat × ResultV)) (p : Nat)
    (hp : p ∉ l.map Prod.fst) : setEntries emptyMap l p = none := by
  rw [setEntries_not_mem emptyMap l p hp]
  rfl

/-! ## Chunk-entry lemmas -/

theorem adaptEntries_keys_sublist :
    ∀ (c : List RegInfo) (vals : List RVal),
    ((adaptEntries (c.zip vals)).map Prod.fst).Sublist (c.map (·.prop))
  | [], _ => by simp [adaptEntries]
  | _ :: _, [] => by simp [adaptEntries]
  | r :: c, v :: vals => by
    show ((adaptEntries ((r, v) :: c.zip vals)).map Prod.fst).Sublist _
    unfold adaptEntries
    cases applyAdapt r v with
    | error e =>
      exact (adaptEntries_keys_sublist c vals).trans (List.sublist_cons_self _ _)
    | ok v1 =>
      simp only [List.map_cons]
      exact (adaptEntries_keys_sublist c vals).cons₂ _

theorem adaptEntries_mem :
    ∀ (l : List (RegInfo × RVal)) (r : RegInfo) (v : RVal) (v1 : RVal),
    (r, v) ∈ l → applyAdapt r v = .ok v1 →
    (r.prop, (⟨some v1, none⟩ : ResultV)) ∈ adaptEntries l
  | [], _, _, _, hmem, _ => absurd hmem (by simp)
  | (r0, v0) :: rest, r, v, v1, hmem, hada => by
    rcases List.mem_cons.mp hmem with heq | hmem'
    · obtain ⟨hr, hv⟩ := Prod.mk.injEq .. ▸ heq.symm
      subst hr; subst hv
      unfold adaptEntries
      rw [hada]
      exact List.mem_cons_self _ _
    · unfold adaptEntries
      cases applyAdapt r0 v0 with
      | error e => exact adaptEntries_mem rest r v v1 hmem' hada
      | ok w => exact List.mem_cons_of_mem _ (adaptEntries_mem rest r v v1 hmem' hada)

theorem readRegisters_ok (rch : RChan) (a c dev : Nat) (ws : List Nat)
    (hch : rch a c dev = .ok ws) (hlen : ws.length = c) :
    readRegisters rch a c dev = (.ok ws, [.read a c dev]) := by
  unfold readRegisters
  rw [hch]
  show (if ws.length = c then (Except.ok ws : Except PyErr (List Nat))
    else .error .slaveBusy, [Cmd.read a c dev]) = _
  rw [if_pos hlen]

theorem readRegisters_err (rch : RChan) (a c dev : Nat) (e : PyErr)
    (hch : rch a c dev = .error e) :
    readRegisters rch a c dev = (.error e, [.read a c dev]) := by
  unfold readRegisters
  rw [hch]

theorem get_multiple_run_reduce (rch : RChan) (dev : Nat) (r0 : RegInfo)
    (rest : List RegInfo) :
    get_multiple_run rch dev (r0 :: rest)
      = (if ¬ contigOk (r0 :: rest) = true then (.error .invalidArgument, [])
         else
           match readRegisters rch r0.addr (chunkSpan (r0 :: rest)) dev with
           | (.error e, t) => (.error e, t)
           | (.ok ws, t) => (decodeSlices ws r0.addr (r0 :: rest), t)) := rfl

theorem get_multiple_run_ok (rch : RChan) (dev : Nat) (r0 : RegInfo)
    (rest : List RegInfo) (ws : List Nat) (vals : List RVal)
    (hcok : contigOk (r0 :: rest) = true)
    (hch : rch r0.addr (chunkSpan (r0 :: rest)) dev = .ok ws)
    (hlen : ws.length = chunkSpan (r0 :: rest))
    (hdec : decodeSlices ws r0.addr (r0 :: rest) = .ok vals) :
    get_multiple_run rch dev (r0 :: rest)
      = (.ok vals, [.read r0.addr (chunkSpan (r0 :: rest)) dev]) := by
  rw [get_multiple_run_reduce, hcok]
  simp only [not_true_eq_false, if_false]
  rw [readRegisters_ok rch r0.addr (chunkSpan (r0 :: rest)) dev ws hch hlen]
  show (decodeSlices ws r0.addr (r0 :: rest),
    [Cmd.read r0.addr (chunkSpan (r0 :: rest)) dev]) = _
  rw [hdec]

theorem get_multiple_run_err (rch : RChan) (dev : Nat) (r0 : RegInfo)
    (rest : List RegInfo) (e : PyErr)
    (hcok : contigOk (r0 :: rest) = true)
    (hch : rch r0.addr (chunkSpan (r0 :: rest)) dev = .error e) :
    get_multiple_run rch dev (r0 :: rest)
      = (.error e, [.read r0.addr (chunkSpan (r0 :: rest)) dev]) := by
  rw [get_multiple_run_reduce, hcok]
  simp only [not_true_eq_false, if_false]
  rw [readRegisters_err rch r0.addr (chunkSpan (r0 :: rest)) dev e hch]

theorem get_chunk_ok (rch : RChan) (dev : Nat) (r0 : RegInfo)
    (rest : List RegInfo) (ws : List Nat) (vals : List RVal)
    (hcok : contigOk (r0 :: rest) = true)
    (hch : rch r0.addr (chunkSpan (r0 :: rest)) dev = .ok ws)
    (hlen : ws.length = chunkSpan (r0 :: rest))
    (hdec : decodeSlices ws r0.addr (r0 :: rest) = .ok vals) :
    get_chunk rch (r0 :: rest) dev
      = (.ok (adaptEntries ((r0 :: rest).zip vals)),
         [.read r0.addr (chunkSpan (r0 :: rest)) dev]) := by
  unfold get_chunk
  rw [get_multiple_run_ok rch dev r0 rest ws vals hcok hch hlen hdec]

theorem get_chunk_ack (rch : RChan) (dev : Nat) (r0 : RegInfo)
    (rest : List RegInfo)
    (hcok : contigOk (r0 :: rest) = true)
    (hch : rch r0.addr (chunkSpan (r0 :: rest)) dev = .error .acknowledge) :
    get_chunk rch (r0 :: rest) dev
      = (.error .acknowledge, [.read r0.addr (chunkSpan (r0 :: rest)) dev]) := by
  unfold get_chunk
  rw [get_multiple_run_err rch dev r0 rest .acknowledge hcok hch]

theorem get_chunk_ok_shape (rch : RChan) (dev : Nat) (c : List RegInfo)
    (e : List (Nat × ResultV)) (h : (get_chunk rch c dev).1 = .ok e) :
    ∃ vals, e = adaptEntries (c.zip vals) := by
  unfold get_chunk at h
  rcases hgm : get_multiple_run rch dev c with ⟨res, tr⟩
  rw [hgm] at h
  cases res with
  | error e2 => cases h
  | ok vals =>
    refine ⟨vals, ?_⟩
    have h2 := Except.ok.inj h
    rw [← h2]

theorem chunkEntriesOf_keys (rch : RChan) (dev : Nat) (c : List RegInfo) :
    ((chunkEntriesOf rch dev c).map Prod.fst).Sublist (c.map (·.prop)) := by
  unfold chunkEntriesOf
  rcases hres : (get_chunk rch c dev).1 with e | entries
  · simp
  · obtain ⟨vals, hv⟩ := get_chunk_ok_shape rch dev c entries hres
    rw [hv]
    exact adaptEntries_keys_sublist c vals

theorem goodEntries_keys_sublist (rch : RChan) (dev : Nat) :
    ∀ cks : List (List RegInfo),
    ((goodEntries rch dev cks).map Prod.fst).Sublist ((cks.flatten).map (·.prop))
  | [] => by simp [goodEntries]
  | c :: cks => by
    show (((chunkEntriesOf rch dev c) ++ goodEntries rch dev cks).map Prod.fst).Sublist
      ((c ++ cks.flatten).map (·.prop))
    rw [List.map_append, List.map_append]
    exact (chunkEntriesOf_keys rch dev c).append (goodEntries_keys_sublist rch dev cks)

theorem goodEntries_mem_of_chunk (rch : RChan) (dev : Nat) :
    ∀ (cks : List (List RegInfo)) (c : List RegInfo), c ∈ cks →
    ∀ kv ∈ chunkEntriesOf rch dev c, kv ∈ goodEntries rch dev cks
  | [], _, hc, _, _ => absurd hc (by simp)
  | c0 :: cks, c, hc, kv, hkv => by
    show kv ∈ chunkEntriesOf rch dev c0 ++ goodEntries rch dev cks
    rcases List.mem_cons.mp hc with heq | hmem
    · subst heq
      exact List.mem_append_left _ hkv
    · exact List.mem_append_right _ (goodEntries_mem_of_chunk rch dev cks c hmem kv hkv)

theorem get_multiple_go_reduce (rch : RChan) (dev : Nat) (c : List RegInfo)
    (cks : List (List RegInfo)) (m : DataMap) :
    get_multiple_go rch dev (c :: cks) m
      = (match get_chunk rch c dev with
         | (.ok entries, t) =>
           match get_multiple_go rch dev cks (setEntries m entries) with
           | (r, t1) => (r, t ++ t1)
         | (.error .acknowledge, t) =>
           match get_multiple_go rch dev cks m with
           | (r, t1) => (r, t ++ t1)
         | (.error e, t) => (.error e, t)) := rfl

theorem get_multiple_go_collect (rch : RChan) (dev : Nat) :
    ∀ (cks : List (List RegInfo)) (m : DataMap),
    (∀ c ∈ cks, (∃ e, (get_chunk rch c dev).1 = .ok e)
      ∨ (get_chunk rch c dev).1 = .error .acknowledge) →
    (get_multiple_go rch dev cks m).1 = .ok (setEntries m (goodEntries rch dev cks))
  | [], m, _ => rfl
  | c :: cks, m, hall => by
    have hc := hall c (List.mem_cons_self _ _)
    have hrest := fun c2 hc2 => hall c2 (List.mem_cons_of_mem _ hc2)
    have hgood : goodEntries rch dev (c :: cks)
        = chunkEntriesOf rch dev c ++ goodEntries rch dev cks := rfl
    rw [get_multiple_go_reduce]
    rcases hgc : get_chunk rch c dev with ⟨res, tr⟩
    cases res with
    | ok entries =>
      have hent : chunkEntriesOf rch dev c = entries := by
        unfold chunkEntriesOf
        rw [hgc]
      rcases hrec : get_multiple_go rch dev cks (setEntries m entries) with ⟨r1, t1⟩
      have hrec2 := get_multiple_go_collect rch dev cks (setEntries m entries) hrest
      rw [hrec] at hrec2
      show (match get_multiple_go rch dev cks (setEntries m entries) with
        | (r, t1) => (r, tr ++ t1)).1
        = Except.ok (setEntries m (goodEntries rch dev (c :: cks)))
      rw [hrec]
      show r1 = Except.ok (setEntries m (goodEntries rch dev (c :: cks)))
      rw [hgood, hent, setEntries_append]
      exact hrec2
    | error e2 =>
      have he2 : e2 = .acknowledge := by
        rcases hc with ⟨w, hw⟩ | hw
        · rw [hgc] at hw
          cases hw
        · rw [hgc] at hw
          have h3 := Except.error.inj hw
          rw [h3]
      subst he2
      have hent : chunkEntriesOf rch dev c = [] := by
        unfold chunkEntriesOf
        rw [hgc]
      rcases hrec : get_multiple_go rch dev cks m with ⟨r1, t1⟩
      have hrec2 := get_multiple_go_collect rch dev cks m hrest
      rw [hrec] at hrec2
      show r1 = Except.ok (setEntries m (goodEntries rch dev (c :: cks)))
      rw [hgood, hent, List.nil_append]
      exact hrec2

theorem pair_mem_map_sum (f : List RegInfo → Nat) :
    ∀ (l : List (List RegInfo)) (a b : List RegInfo), a ∈ l → b ∈ l → a ≠ b →
    f a + f b ≤ (l.map f).sum
  | [], a, _, ha, _, _ => absurd ha (by simp)
  | x :: xs, a, b, ha, hb, hne => by
    simp only [List.map_cons, List.sum_cons]
    rcases List.mem_cons.mp ha with heqa | ha'
    · subst heqa
      have hb' : b ∈ xs := by
        rcases List.mem_cons.mp hb with heqb | h
        · exact absurd heqb.symm hne
        · exact h
      have hble : f b ≤ (xs.map f).sum :=
        List.single_le_sum (fun x _ => Nat.zero_le x) _ (List.mem_map_of_mem f hb')
      omega
    · rcases List.mem_cons.mp hb with heqb | hb'
      · subst heqb
        have hale : f a ≤ (xs.map f).sum :=
          List.single_le_sum (fun x _ => Nat.zero_le x) _ (List.mem_map_of_mem f ha')
        omega
      · have := pair_mem_map_sum f xs a b ha' hb' hne
        omega

theorem not_nodup_two_chunks (cks : List (List RegInfo)) (p : Nat)
    (c1 c2 : List RegInfo) (h1 : c1 ∈ cks) (h2 : c2 ∈ cks) (hne : c1 ≠ c2)
    (hp1 : p ∈ c1.map (·.prop)) (hp2 : p ∈ c2.map (·.prop)) :
    ¬ ((cks.flatten.map (·.prop)).Nodup) := by
  intro hnd
  have hcount : (cks.flatten.map (·.prop)).count p ≤ 1 :=
    List.nodup_iff_count_le_one.mp hnd p
  have heq : (cks.flatten.map (·.prop)).count p
      = (cks.map (fun c => (c.map (·.prop)).count p)).sum := by
    rw [List.map_flatten, List.count_flatten, List.map_map]
    rfl
  have hge := pair_mem_map_sum (fun c => (c.map (·.prop)).count p) cks c1 c2 h1 h2 hne
  beta_reduce at hge
  have hc1 : 0 < (c1.map (·.prop)).count p := List.count_pos_iff.mpr hp1
  have hc2 : 0 < (c2.map (·.prop)).count p := List.count_pos_iff.mpr hp2
  omega

/-- C2: Aggregate-fetch partial-failure isolation. For a device whose
read-capable registers have pairwise distinct properties, if the bulk read
of one contiguous run answers `AiriosAcknowledgeException` while every
other run's bulk read succeeds and decodes, then `get_multiple` returns a
map (it does not raise) in which every register of the failing run is
absent and every successfully adapted register of every other run is
present with its decoded value; `fetch(all_properties=True)` then returns,
without raising, that map with every still-missing declared property
filled with the explicit absent `Result(None, None)`, so the result has
exactly one entry per declared property. -/
theorem aggregate_fetch_partial_failure (rch : RChan) (d : DeviceT)
    (cfail : List RegInfo)
    (hnodup : ((d.registers.filter (·.canRead)).map (·.prop)).Nodup)
    (hfail : cfail ∈ chunksOf (d.registers.filter (·.canRead)))
    (hack : rch (chunkStart cfail) (chunkSpan cfail) d.devId = .error .acknowledge)
    (hok : ∀ c ∈ chunksOf (d.registers.filter (·.canRead)), c ≠ cfail →
      ∃ ws vals, rch (chunkStart c) (chunkSpan c) d.devId = .ok ws ∧
        ws.length = chunkSpan c ∧ decodeSlices ws (chunkStart c) c = .ok vals) :
    ∃ m : DataMap,
      (get_multiple rch (d.registers.filter (·.canRead)) d.devId).1 = .ok m ∧
      (∀ r ∈ cfail, m r.prop = none) ∧
      (∀ c ∈ chunksOf (d.registers.filter (·.canRead)), c ≠ cfail →
        ∀ ws vals, rch (chunkStart c) (chunkSpan c) d.devId = .ok ws →
          decodeSlices ws (chunkStart c) c = .ok vals →
          ∀ rv ∈ c.zip vals, ∀ v1, applyAdapt rv.1 rv.2 = .ok v1 →
            m rv.1.prop = some ⟨some v1, none⟩) ∧
      (fetch rch d true).1 = .ok (fillAbsent d m) ∧
      (∀ p, (fillAbsent d m p).isSome = true ↔ p ∈ declaredProps d) := by
  have hne : cfail ≠ [] := (chunksOf_mem _ cfail hfail).1
  have hcok : contigOk cfail = true :=
    contigOk_of_chain cfail (chunksOf_mem _ cfail hfail).2
  have hack_chunk : get_chunk rch cfail d.devId
      = (.error .acknowledge,
         [.read (chunkStart cfail) (chunkSpan cfail) d.devId]) := by
    rcases hcf : cfail with _ | ⟨f0, frest⟩
    · exact absurd hcf hne
    · rw [hcf] at hcok hack
      exact get_chunk_ack rch d.devId f0 frest hcok hack
  have hallchunks : ∀ c ∈ chunksOf (d.registers.filter (·.canRead)),
      (∃ e, (get_chunk rch c d.devId).1 = .ok e)
        ∨ (get_chunk rch c d.devId).1 = .error .acknowledge := by
    intro c hc
    by_cases hceq : c = cfail
    · subst hceq
      right
      rw [hack_chunk]
    · left
      obtain ⟨ws, vals, hch, hlen, hdec⟩ := hok c hc hceq
      have hcok2 : contigOk c = true := contigOk_of_chain c (chunksOf_mem _ c hc).2
      have hcne2 : c ≠ [] := (chunksOf_mem _ c hc).1
      rcases hcc : c with _ | ⟨r0, rest⟩
      · exact absurd hcc hcne2
      · rw [hcc] at hcok2 hch hlen hdec
        exact ⟨_, by rw [get_chunk_ok rch d.devId r0 rest ws vals hcok2 hch hlen hdec]⟩
  have hempty : (d.registers.filter (·.canRead)).isEmpty = false := by
    rcases hfl : d.registers.filter (·.canRead) with _ | ⟨a, l⟩
    · rw [hfl] at hfail
      simp [chunksOf] at hfail
    · rw [hfl]
      rfl
  have hanyf : ((d.registers.filter (·.canRead)).any fun r => ¬ r.canRead) = false := by
    rw [Bool.eq_false_iff]
    intro hco
    rw [List.any_eq_true] at hco
    obtain ⟨r, hr, hdecr⟩ := hco
    have hmem := List.of_mem_filter hr
    simp only [decide_eq_true_eq, Bool.not_eq_true] at hdecr
    simp only [hdecr] at hmem
    cases hmem
  have hgm : (get_multiple rch (d.registers.filter (·.canRead)) d.devId).1
      = .ok (setEntries emptyMap
          (goodEntries rch d.devId (chunksOf (d.registers.filter (·.canRead))))) := by
    unfold get_multiple
    rw [hempty, hanyf]
    simp only [Bool.false_eq_true, if_false]
    exact get_multiple_go_collect rch d.devId _ emptyMap hallchunks
  refine ⟨setEntries emptyMap
    (goodEntries rch d.devId (chunksOf (d.registers.filter (·.canRead)))),
    hgm, ?_, ?_, ?_, ?_⟩
  · -- failing run's properties are absent
    intro r hr
    apply setEntries_none_of_not_mem
    intro hmemk
    obtain ⟨kv, hkvmem, hkv1⟩ := List.mem_map.mp hmemk
    have hflat : kv ∈ (((chunksOf (d.registers.filter (·.canRead))).map
        (chunkEntriesOf rch d.devId))).flatten := hkvmem
    obtain ⟨l, hlmem, hkvin⟩ := List.mem_flatten.mp hflat
    obtain ⟨c2, hc2mem, hc2eq⟩ := List.mem_map.mp hlmem
    rw [← hc2eq] at hkvin
    by_cases hc2f : c2 = cfail
    · subst hc2f
      have hentnil : chunkEntriesOf rch d.devId c2 = [] := by
        unfold chunkEntriesOf
        rw [hack_chunk]
      rw [hentnil] at hkvin
      cases hkvin
    · have hkeymem : r.prop ∈ (chunkEntriesOf rch d.devId c2).map Prod.fst := by
        rw [← hkv1]
        exact List.mem_map_of_mem Prod.fst hkvin
      have hp2 : r.prop ∈ c2.map (·.prop) :=
        (chunkEntriesOf_keys rch d.devId c2).subset hkeymem
      have hp1 : r.prop ∈ cfail.map (·.prop) := List.mem_map_of_mem _ hr
      have hcontra := not_nodup_two_chunks
        (chunksOf (d.registers.filter (·.canRead))) r.prop cfail c2
        hfail hc2mem (fun h => hc2f h.symm) hp1 hp2
      rw [chunksOf_flatten] at hcontra
      exact hcontra hnodup
  · -- other runs' properties are present with their decoded, adapted value
    intro c hc hcne ws vals hch hdec rv hrv v1 hada
    have hcok2 : contigOk c = true := contigOk_of_chain c (chunksOf_mem _ c hc).2
    have hcne2 : c ≠ [] := (chunksOf_mem _ c hc).1
    obtain ⟨ws0, vals0, hch0, hlen0, hdec0⟩ := hok c hc hcne
    have hws : ws = ws0 := by
      rw [hch] at hch0
      exact Except.ok.inj hch0
    subst hws
    obtain ⟨r0, rest, hcc⟩ : ∃ r0 rest, c = r0 :: rest :=
      match c, hcne2 with
      | [], h => absurd rfl h
      | x :: xs, _ => ⟨x, xs, rfl⟩
    subst hcc
    apply setEntries_mem
    · -- membership in goodEntries
      have hent : chunkEntriesOf rch d.devId (r0 :: rest)
          = adaptEntries ((r0 :: rest).zip vals) := by
        unfold chunkEntriesOf
        rw [get_chunk_ok rch d.devId r0 rest ws vals hcok2 hch hlen0 hdec]
      have hmem1 : (rv.1.prop, (⟨some v1, none⟩ : ResultV))
          ∈ adaptEntries ((r0 :: rest).zip vals) :=
        adaptEntries_mem ((r0 :: rest).zip vals) rv.1 rv.2 v1 (by simpa using hrv) hada
      rw [← hent] at hmem1
      exact goodEntries_mem_of_chunk rch d.devId _ (r0 :: rest) hc _ hmem1
    · -- keys of goodEntries are nodup
      have hsub := goodEntries_keys_sublist rch d.devId
        (chunksOf (d.registers.filter (·.canRead)))
      rw [chunksOf_flatten] at hsub
      exact hnodup.sublist hsub
  · -- fetch does not raise and fills with the map
    show (match get_multiple rch (d.registers.filter (·.canRead)) d.devId with
      | (Except.error e, t) => ((Except.error e : Except PyErr DataMap), t)
      | (Except.ok m, t) => (Except.ok (if true = true then fillAbsent d m else m), t)).1
      = _
    rcases hg2 : get_multiple rch (d.registers.filter (·.canRead)) d.devId with ⟨res, tr⟩
    rw [hg2] at hgm
    cases res with
    | error e => cases hgm
    | ok m2 =>
      have hm2 : m2 = setEntries emptyMap
          (goodEntries rch d.devId (chunksOf (d.registers.filter (·.canRead)))) :=
        Except.ok.inj hgm
      subst hm2
      rfl
  · -- exactly one entry per declared property
    intro p
    unfold fillAbsent
    rcases hmp : setEntries emptyMap
        (goodEntries rch d.devId (chunksOf (d.registers.filter (·.canRead)))) p
        with _ | r
    · simp only
      split_ifs with hmemd
      · simp [hmemd]
      · simp [hmemd]
    · simp only [Option.isSome_some, true_iff]
      have hkey : p ∈ (goodEntries rch d.devId
          (chunksOf (d.registers.filter (·.canRead)))).map Prod.fst := by
        by_contra hno
        rw [setEntries_none_of_not_mem _ p hno] at hmp
        cases hmp
      have hsub := goodEntries_keys_sublist rch d.devId
        (chunksOf (d.registers.filter (·.canRead)))
      rw [chunksOf_flatten] at hsub
      have hrl : p ∈ (d.registers.filter (·.canRead)).map (·.prop) := hsub.subset hkey
      have hfs : ((d.registers.filter (·.canRead)).map (·.prop)).Sublist
          (d.registers.map (·.prop)) := (List.filter_sublist _).map _
      exact hfs.subset hrl

/-- Witness for `aggregate_fetch_partial_failure`: a three-register device
with runs [10, 12) and [20, 21), the first run answering Acknowledge. -/
theorem aggregate_fetch_partial_failure_witness :
    (((exDevice.registers.filter (·.canRead)).map (·.prop)).Nodup) ∧
    ([regA10, regA11] ∈ chunksOf (exDevice.registers.filter (·.canRead))) ∧
    (∃ m : DataMap,
      (get_multiple chanAck (exDevice.registers.filter (·.canRead)) exDevice.devId).1
        = .ok m ∧
      (∀ r ∈ [regA10, regA11], m r.prop = none) ∧
      (∀ c ∈ chunksOf (exDevice.registers.filter (·.canRead)), c ≠ [regA10, regA11] →
        ∀ ws vals, chanAck (chunkStart c) (chunkSpan c) exDevice.devId = .ok ws →
          decodeSlices ws (chunkStart c) c = .ok vals →
          ∀ rv ∈ c.zip vals, ∀ v1, applyAdapt rv.1 rv.2 = .ok v1 →
            m rv.1.prop = some ⟨some v1, none⟩) ∧
      (fetch chanAck exDevice true).1 = .ok (fillAbsent exDevice m) ∧
      (∀ p, (fillAbsent exDevice m p).isSome = true ↔ p ∈ declaredProps exDevice)) :=
  ⟨by decide, by decide,
    aggregate_fetch_partial_failure chanAck exDevice [regA10, regA11]
      (by decide) (by decide) rfl
      (fun c hc hcne => by
        have hck : chunksOf (exDevice.registers.filter (·.canRead))
            = [[regA10, regA11], [regA20]] := by decide
        rw [hck] at hc
        rcases List.mem_cons.mp hc with heq | hmem
        · exact absurd heq hcne
        · rcases List.mem_cons.mp hmem with heq2 | hnil
          · subst heq2
            exact ⟨[7], [.num 7], rfl, rfl, rfl⟩
          · cases hnil)⟩
